import Mathlib

/-!
Verification development for the OCFL inventory validator
(src/ocfl/inventory_validator.py and src/ocfl/validation_logger.py).

The Python code operates on the result of json.load, so documents are
modelled by the inductive type Value below.  Python runtime faults that the
validator can hit (IndexError on a negative index into an empty list,
TypeError on membership tests or indexing of non-container values, KeyError,
AttributeError, NameError, and the explicit raise in digest_regex) are
modelled by the PyErr type, and every function that can fault returns
Except PyErr.  Diagnostics reported through the shared logger are modelled
as a list of LogEntry values (severity, code, keyword arguments) produced in
program order; the InventoryValidator wrapper methods error/warn add a
constant where=self.where argument, which carries no information and is
omitted from the entries.
-/

set_option maxRecDepth 100000

namespace OcflSpec

/-- JSON-like values as produced by json.load.  Numbers are modelled by Int;
no claim touches non-integer numerics.  Objects are association lists in
insertion order, matching the ordered dicts json.load produces. -/
inductive Value where
  | null
  | bool (b : Bool)
  | num (n : Int)
  | str (s : String)
  | arr (elts : List Value)
  | obj (fields : List (String × Value))

mutual

/-- Structural equality on values (Python == on json.load results). -/
def beqV : Value → Value → Bool
  | .null, .null => true
  | .bool a, .bool b => a == b
  | .num a, .num b => a == b
  | .str a, .str b => a == b
  | .arr a, .arr b => beqVL a b
  | .obj a, .obj b => beqVF a b
  | _, _ => false
termination_by structural v => v

/-- Equality on value lists. -/
def beqVL : List Value → List Value → Bool
  | [], [] => true
  | x :: xs, y :: ys => beqV x y && beqVL xs ys
  | _, _ => false
termination_by structural l => l

/-- Equality on field lists. -/
def beqVF : List (String × Value) → List (String × Value) → Bool
  | [], [] => true
  | (k, v) :: xs, (k2, v2) :: ys => k == k2 && beqV v v2 && beqVF xs ys
  | _, _ => false
termination_by structural l => l

end

mutual

theorem beqV_iff : (a b : Value) → (beqV a b = true ↔ a = b)
  | .null, b => by cases b <;> simp [beqV]
  | .bool x, b => by cases b <;> simp [beqV]
  | .num x, b => by cases b <;> simp [beqV]
  | .str x, b => by cases b <;> simp [beqV]
  | .arr xs, b => by
      cases b <;> simp [beqV]
      exact beqVL_iff xs _
  | .obj xs, b => by
      cases b <;> simp [beqV]
      exact beqVF_iff xs _
termination_by structural a => a

theorem beqVL_iff : (a b : List Value) → (beqVL a b = true ↔ a = b)
  | [], b => by cases b <;> simp [beqVL]
  | x :: xs, [] => by simp [beqVL]
  | x :: xs, y :: ys => by
      simp [beqVL, beqV_iff x y, beqVL_iff xs ys]
termination_by structural a => a

theorem beqVF_iff : (a b : List (String × Value)) → (beqVF a b = true ↔ a = b)
  | [], b => by cases b <;> simp [beqVF]
  | x :: xs, [] => by simp [beqVF]
  | (k, v) :: xs, (k2, v2) :: ys => by
      simp [beqVF, beqV_iff v v2, beqVF_iff xs ys]
termination_by structural a => a

end

instance : DecidableEq Value := fun a b => decidable_of_iff _ (beqV_iff a b)

/-- Python runtime faults reachable from the validator, plus the explicit
raise Exception in digest_regex. -/
inductive PyErr where
  | indexError
  | typeError
  | keyError
  | attributeError
  | nameError
  | exception (msg : String)
deriving DecidableEq

/-- Severity of a diagnostic (which logger method was called). -/
inductive Sev where
  | err
  | warn
deriving DecidableEq

/-- One diagnostic delivered to the logger: code plus keyword arguments. -/
structure LogEntry where
  sev : Sev
  code : String
  args : List (String × Value)
deriving DecidableEq

/-- Diagnostics produced by a piece of code, in program order. -/
abbrev Log := List LogEntry

/-- self.error(code, ...) through the shared logger. -/
def errE (code : String) (args : List (String × Value)) : LogEntry := ⟨.err, code, args⟩

/-- self.warn(code, ...) through the shared logger. -/
def warnE (code : String) (args : List (String × Value)) : LogEntry := ⟨.warn, code, args⟩

/-- True when some entry with this code fired. -/
def hasCode (lg : Log) (c : String) : Bool := lg.any (fun e => e.code == c)

/-- True when some entry with this code fired carrying the given keyword
argument. -/
def hasCodeArg (lg : Log) (c k : String) (v : Value) : Bool :=
  lg.any (fun e => e.code == c && decide ((e.args.lookup k) = some v))

/-- Sequencing of fallible steps: Python evaluation order, where a raised
exception aborts the remainder. -/
def eseq {α β : Type} (x : Except PyErr α) (f : α → Except PyErr β) : Except PyErr β :=
  match x with
  | .error e => .error e
  | .ok a => f a

/-- Association-list lookup: Python dict access on objects built without
duplicate keys. -/
def alGet {α β : Type} [DecidableEq α] : List (α × β) → α → Option β
  | [], _ => none
  | (k, v) :: t, key => if k = key then some v else alGet t key

/-- Python dict assignment d[k] = v: overwrite in place when the key exists,
append otherwise. -/
def alSet {α β : Type} [DecidableEq α] (m : List (α × β)) (k : α) (v : β) :
    List (α × β) :=
  if (alGet m k).isSome then m.map (fun p => if p.1 = k then (k, v) else p)
  else m ++ [(k, v)]

/-- Python set(a).issubset(set(b)). -/
def subsetB {α : Type} [DecidableEq α] (a b : List α) : Bool :=
  a.all (fun x => b.contains x)

/-- Python set(a) == set(b). -/
def setEqB {α : Type} [DecidableEq α] (a b : List α) : Bool :=
  subsetB a b && subsetB b a

/-- Python key in value: dict keys, list membership, substring test on
strings; TypeError on null, booleans and numbers. -/
def valContains (v : Value) (key : String) : Except PyErr Bool :=
  match v with
  | .obj fs => .ok (alGet fs key).isSome
  | .arr xs => .ok (xs.contains (Value.str key))
  | .str s => .ok (strHas s key)
  | _ => .error .typeError
where
  /-- Python pat in s on strings (substring containment). -/
  strHas (s pat : String) : Bool := go s.data pat.data
  /-- Walk every suffix looking for the pattern as a prefix. -/
  go : List Char → List Char → Bool
    | [], p => p.isEmpty
    | c :: t, p => p.isPrefixOf (c :: t) || go t p

/-- Python value[key] with a string key: dict lookup (KeyError when absent),
TypeError on every non-dict value. -/
def valIndex (v : Value) (key : String) : Except PyErr Value :=
  match v with
  | .obj fs =>
    match alGet fs key with
    | some x => .ok x
    | none => .error .keyError
  | _ => .error .typeError

/-- Python iteration over a value: list elements, string characters, dict
keys; TypeError on null, booleans and numbers. -/
def pyIter (v : Value) : Except PyErr (List Value) :=
  match v with
  | .arr xs => .ok xs
  | .str s => .ok (s.data.map (fun c => Value.str (String.mk [c])))
  | .obj fs => .ok (fs.map (fun p => Value.str p.1))
  | _ => .error .typeError

/-! ### Regular-expression models

Each regular expression used by the source is translated to a decidable
predicate with Python re semantics: re.match anchors at the start only, and
a dollar anchor accepts the end of the string or the position just before a
single trailing newline. -/

/-- Character class [0-9a-z] of the digest patterns (note: all lowercase
letters, not only hex digits). -/
def isLowerAlnum (c : Char) : Bool :=
  (('0' ≤ c) && (c ≤ '9')) || (('a' ≤ c) && (c ≤ 'z'))

/-- re.match of a pattern caret [0-9a-z] braces n dollar against s:
exactly n class characters, optionally followed by one trailing newline
(Python dollar also matches just before a final newline). -/
def hexMatch (n : Nat) (s : String) : Bool :=
  let l := s.data
  (l.length == n && l.all isLowerAlnum) ||
  (l.length == n + 1 && (l.take n).all isLowerAlnum && l.getLast? == some '\n')

/-- re.match of the lax pattern dot-star dollar against s: dot does not
match newline, so the match succeeds exactly when no newline occurs before
the final character. -/
def laxMatch (s : String) : Bool :=
  s.data.dropLast.all (fun c => c != '\n')

/-- Python word character for the backslash-w class (ASCII model). -/
def isWordChar (c : Char) : Bool := c.isAlpha || c.isDigit || c == '_'

/-- re.match of the id convention pattern (word-chars, colon, dot-plus):
a nonempty word-character run, then a colon, then at least one non-newline
character.  The colon is not a word character, so the maximal run is the
only candidate and the match is deterministic. -/
def idMatch (s : String) : Bool :=
  let w := s.data.takeWhile isWordChar
  let rest := s.data.drop w.length
  !w.isEmpty &&
    (match rest with
     | ':' :: c :: _ => c != '\n'
     | _ => false)

/-- Suffix test for the created timezone pattern: ends in Z, or in a sign,
two digits, a colon and two digits. -/
def tzSuffix (t : List Char) : Bool :=
  (t.getLast? == some 'Z') ||
  (match t.reverse with
   | a :: b :: c :: d :: e :: f :: _ =>
       a.isDigit && b.isDigit && (c == ':') && d.isDigit && e.isDigit &&
       (f == '+' || f == '-')
   | _ => false)

/-- re.search of the timezone pattern anchored by a dollar: the suffix test
runs at the end of the string, or just before a single trailing newline. -/
def w208Match (s : String) : Bool :=
  let l := s.data
  tzSuffix (if l.getLast? == some '\n' then l.dropLast else l)

/-- One position of the time-of-day pattern: T, two digits, colon, two
digits, colon, two digits. -/
def timeAt (l : List Char) : Bool :=
  match l with
  | 'T' :: a :: b :: c :: d :: e :: f :: g :: h :: _ =>
      a.isDigit && b.isDigit && (c == ':') && d.isDigit && e.isDigit &&
      (f == ':') && g.isDigit && h.isDigit
  | _ => false

/-- re.search of the time-of-day pattern: some position matches. -/
def w209Match : List Char → Bool
  | [] => false
  | c :: t => timeAt (c :: t) || w209Match t

/-- re.match of caret v digits-plus slash, the content directory taken as a
literal, slash — against a path.  The slash terminating the digit run is
not a digit, so maximal munch is exact.  The source splices the content
directory into the pattern text; every content directory exercised by a
claim is free of regex metacharacters, so the literal reading is used. -/
def is_valid_content_path (cd : String) (path : String) : Bool :=
  match path.data with
  | 'v' :: rest =>
    let ds := rest.takeWhile Char.isDigit
    !ds.isEmpty && List.isPrefixOf ('/' :: (cd.data ++ ['/'])) (rest.drop ds.length)
  | _ => false

/-! ### InventoryValidator object state -/

/-- The mutable fields of an InventoryValidator instance set in init and
updated by validate (self.log and self.where carry no document state and
are modelled by the returned Log and the omitted constant context). -/
structure IVState where
  inventory : Value
  digest_algorithm : Value
  content_directory : String
  head : Option String
  all_versions : List String
  manifest_files : Option (List (String × String))
  lax_digests : Bool
deriving DecidableEq

instance : Inhabited IVState :=
  ⟨⟨.null, .str "sha512", "content", none, [], none, false⟩⟩

/-- The three regex values digest_regex can return. -/
inductive DigestRegex where
  | rx512
  | rx256
  | rxLax
deriving DecidableEq

/-- re.match of the selected digest pattern against a candidate digest. -/
def DigestRegex.test : DigestRegex → String → Bool
  | .rx512, s => hexMatch 128 s
  | .rx256, s => hexMatch 64 s
  | .rxLax, s => laxMatch s

/-- InventoryValidator.digest_regex: the pattern for the current algorithm,
or the raised Exception for an unrecognized algorithm without lax mode. -/
def digest_regex (st : IVState) : Except PyErr DigestRegex :=
  if st.digest_algorithm = Value.str "sha512" then .ok .rx512
  else if st.digest_algorithm = Value.str "sha256" then .ok .rx256
  else if st.lax_digests then .ok .rxLax
  else .error (.exception "Bad digest algorithm")

/-! ### Version-sequence resolver -/

/-- The version directory name for number k: unpadded v-k, or zero-padded
to the probe width (Python percent-0-n-d formatting, no truncation). -/
def vfmt (pad : Option Nat) (k : Nat) : String :=
  match pad with
  | none => "v" ++ toString k
  | some n =>
    let s := toString k
    "v" ++ String.mk (List.replicate (n - s.length) '0') ++ s

/-- The walk over integers 2..max of validate_version_sequence.  The fuel
argument counts the remaining loop iterations (maxv minus 1 at the first
call, so fuel runs out exactly when n passes maxv); on exhaustion the
post-loop extra-versions check runs, and at the first missing name the
count check for extra version directories runs. -/
def seqLoop (vs : List (String × Value)) (pad : Option Nat) (maxv : Nat) :
    Nat → Nat → List String → List String × Log
  | _, 0, acc =>
      (acc, if vs.length > maxv then [errE "E312" []] else [])
  | n, fuel + 1, acc =>
      let v := vfmt pad n
      if (alGet vs v).isSome then seqLoop vs pad maxv (n + 1) fuel (acc ++ [v])
      else (acc, if vs.length ≠ n - 1 then [errE "E312" []] else [])

/-- The padding-width probe: widths n, n+1, ... while fuel lasts (widths 2
through 10 at the call site), returning the first width whose zero-padded
version-1 name is a key. -/
def padProbe (vs : List (String × Value)) : Nat → Nat → Option Nat
  | _, 0 => none
  | n, fuel + 1 =>
      if (alGet vs (vfmt (some n) 1)).isSome then some n
      else padProbe vs (n + 1) fuel

/-- InventoryValidator.validate_version_sequence: the ordered valid
sequence plus the diagnostics it produced. -/
def validate_version_sequence (versions : Value) : List String × Log :=
  match versions with
  | .obj vs =>
    if (alGet vs "v1").isSome then
      seqLoop vs none 999999 2 999998 ["v1"]
    else
      match padProbe vs 2 9 with
      | some n =>
        let maxv := 10 ^ (n - 1) - 1
        let r := seqLoop vs (some n) maxv 2 (maxv - 1) [vfmt (some n) 1]
        (r.1, warnE "W203" [] :: r.2)
      | none => ([], [errE "E311" []])
  | _ => ([], [errE "E310" []])

/-! ### Manifest validation -/

/-- The inner loop of validate_manifest over one digest's file list: each
file becomes a manifest_files entry, then its content path is checked.
A non-string file raises TypeError (lists and dicts are unhashable as dict
keys; other scalars fail re.match). -/
def fileLoop (st : IVState) (digest : String) :
    List Value → List (String × String) → Except PyErr (List (String × String) × Log)
  | [], mf => .ok (mf, [])
  | f :: rest, mf =>
    match f with
    | .str p =>
      eseq (fileLoop st digest rest (alSet mf p digest)) fun r =>
        .ok (r.1, (if is_valid_content_path st.content_directory p then []
                   else [errE "E913" [("path", .str p)]]) ++ r.2)
    | _ => .error .typeError

/-- The loop of validate_manifest over the manifest entries: digest format,
list type, then the per-file checks.  digest_regex is re-evaluated each
iteration, as in the source. -/
def manifestLoop (st : IVState) :
    List (String × Value) → List (String × String) → Except PyErr (List (String × String) × Log)
  | [], mf => .ok (mf, [])
  | (digest, val) :: rest, mf =>
    eseq (digest_regex st) fun rx =>
    if rx.test digest = false then
      eseq (manifestLoop st rest mf) fun r =>
        .ok (r.1, errE "E304" [("digest", .str digest)] :: r.2)
    else
      match val with
      | .arr files =>
        eseq (fileLoop st digest files mf) fun rf =>
        eseq (manifestLoop st rest rf.1) fun r => .ok (r.1, rf.2 ++ r.2)
      | _ =>
        eseq (manifestLoop st rest mf) fun r =>
          .ok (r.1, errE "E308" [("digest", .str digest)] :: r.2)

/-- InventoryValidator.validate_manifest: the manifest_files map (file to
digest) plus diagnostics. -/
def validate_manifest (st : IVState) (manifest : Value) :
    Except PyErr (List (String × String) × Log) :=
  match manifest with
  | .obj entries => manifestLoop st entries []
  | _ => .ok ([], [errE "E307" []])

/-! ### State-block validation -/

/-- The loop of validate_state_block over the state entries: digest format,
then iteration over the value (only to surface the TypeError a
non-iterable value raises), collecting the valid digests. -/
def stateLoop (st : IVState) :
    List (String × Value) → Except PyErr (List String × Log)
  | [] => .ok ([], [])
  | (digest, val) :: rest =>
    eseq (digest_regex st) fun rx =>
    if rx.test digest = false then
      eseq (stateLoop st rest) fun r =>
        .ok (r.1, errE "E305" [("digest", .str digest)] :: r.2)
    else
      eseq (pyIter val) fun _ =>
      eseq (stateLoop st rest) fun r => .ok (digest :: r.1, r.2)

/-- InventoryValidator.validate_state_block: referenced digests plus
diagnostics.  The source evaluates digest_regex once before the loop (and
again inside it), so the unreachable-algorithm exception fires even for an
empty state dict. -/
def validate_state_block (st : IVState) (state : Value) :
    Except PyErr (List String × Log) :=
  match state with
  | .obj entries => eseq (digest_regex st) fun _ => stateLoop st entries
  | _ => .ok ([], [errE "E912" []])

/-! ### Per-version validation -/

/-- validate_versions lines 190-201: the created checks for one version
(presence, string type, parse through str_to_datetime, and the two
advisory format warnings W208/W209 on success). -/
def createdCheck (sdt : String → Except String Unit) (version : Value) (v : String) :
    Except PyErr Log :=
  eseq (valContains version "created") fun hc =>
  if hc then
    eseq (valIndex version "created") fun cv =>
    match cv with
    | .str s =>
      match sdt s with
      | .ok _ =>
        .ok ((if w208Match s then [] else [warnE "W208" [("version", .str v)]]) ++
             (if w209Match s.data then [] else [warnE "W209" [("version", .str v)]]))
      | .error e =>
        .ok [errE "E402" [("version", .str v), ("description", .str e)]]
    | _ => .ok [errE "E401" [("version", .str v)]]
  else .ok [errE "E401" [("version", .str v)]]

/-- validate_versions lines 202-205: the state block for one version. -/
def stateCheck (st : IVState) (version : Value) (v : String) :
    Except PyErr (List String × Log) :=
  eseq (valContains version "state") fun hs =>
  if hs then eseq (valIndex version "state") fun sv => validate_state_block st sv
  else .ok ([], [errE "E410" [("version", .str v)]])

/-- validate_versions lines 206-209: the message checks for one version. -/
def messageCheck (version : Value) (v : String) : Except PyErr Log :=
  eseq (valContains version "message") fun hm =>
  if !hm then .ok [warnE "W201" [("version", .str v)]]
  else
    eseq (valIndex version "message") fun mv =>
    match mv with
    | .str _ => .ok []
    | _ => .ok [errE "E403" [("version", .str v)]]

/-- validate_versions lines 210-222: the user checks for one version. -/
def userCheck (version : Value) (v : String) : Except PyErr Log :=
  eseq (valContains version "user") fun hu =>
  if !hu then .ok [warnE "W202" [("version", .str v)]]
  else
    eseq (valIndex version "user") fun uv =>
    match uv with
    | .obj ufields =>
      .ok ((match alGet ufields "name" with
            | some (.str _) => []
            | _ => [errE "E405" [("version", .str v)]]) ++
           (match alGet ufields "address" with
            | none => [warnE "W210" [("version", .str v)]]
            | some (.str _) => []
            | some _ => [errE "E406" [("version", .str v)]]))
    | _ => .ok [errE "E404" [("version", .str v)]]

/-- The body of the validate_versions loop for one version directory name:
created, state, message, user, in program order. -/
def oneVersionCheck (sdt : String → Except String Unit) (st : IVState)
    (versionsV : Value) (v : String) : Except PyErr (List String × Log) :=
  eseq (valIndex versionsV v) fun version =>
  eseq (createdCheck sdt version v) fun lgC =>
  eseq (stateCheck st version v) fun rs =>
  eseq (messageCheck version v) fun lgM =>
  eseq (userCheck version v) fun lgU =>
  .ok (rs.1, lgC ++ rs.2 ++ lgM ++ lgU)

/-- InventoryValidator.validate_versions: loop over the valid sequence,
returning the digests used by the state blocks plus diagnostics. -/
def validate_versions (sdt : String → Except String Unit) (st : IVState)
    (versionsV : Value) : List String → Except PyErr (List String × Log)
  | [] => .ok ([], [])
  | v :: rest =>
    eseq (oneVersionCheck sdt st versionsV v) fun r1 =>
    eseq (validate_versions sdt st versionsV rest) fun r2 =>
    .ok (r1.1 ++ r2.1, r1.2 ++ r2.2)

/-! ### Manifest/state digest cross-check -/

/-- Python ", ".join. -/
def joinComma : List String → String
  | [] => ""
  | [x] => x
  | x :: y :: t => x ++ ", " ++ joinComma (y :: t)

/-- InventoryValidator.check_digests_present_and_used.  Called on the raw
manifest value: a non-dict raises AttributeError at manifest.keys(). -/
def check_digests_present_and_used (manifest : Value) (digests_used : List String) :
    Except PyErr Log :=
  match manifest with
  | .obj m =>
    let keys := m.map Prod.fst
    if setEqB keys digests_used then .ok []
    else
      let not_in_state := keys.filter (fun d => !digests_used.contains d)
      let not_in_manifest := digests_used.filter (fun d => !keys.contains d)
      .ok ((if not_in_manifest.length > 0 then
              [errE "E913" [("description",
                .str ("in state but not in manifest: " ++ joinComma not_in_manifest))]]
            else []) ++
           (if not_in_state.length > 0 then
              [errE "E302" [("description",
                .str ("in manifest but not in state: " ++ joinComma not_in_state))]]
            else []))
  | _ => .error .attributeError

/-! ### validate, block by block (lines 49-99 of the source) -/

/-- validate lines 53-60: the id checks. -/
def idBlock (inv : Value) : Except PyErr Log :=
  eseq (valContains inv "id") fun cid =>
  if cid then
    eseq (valIndex inv "id") fun iid =>
    match iid with
    | .str s =>
      if s = "" then .ok [errE "E101" []]
      else if idMatch s then .ok []
      else .ok [warnE "W207" [("id", .str s)]]
    | _ => .ok [errE "E101" []]
  else .ok [errE "E100" []]

/-- validate lines 61-64: the type checks. -/
def typeBlock (inv : Value) : Except PyErr Log :=
  eseq (valContains inv "type") fun ct =>
  if !ct then .ok [errE "E102" []]
  else
    eseq (valIndex inv "type") fun tv =>
    .ok (if tv = Value.str "https://ocfl.io/1.0/spec/#inventory" then []
         else [errE "E103" []])

/-- validate lines 65-75: digest-algorithm resolution, returning the value
self.digest_algorithm holds afterwards (initialized to sha512).  The lax
branch is tested before the sha256 branch, as in the source. -/
def digestAlgorithmBlock (lax : Bool) (inv : Value) : Except PyErr (Value × Log) :=
  eseq (valContains inv "digestAlgorithm") fun cda =>
  if !cda then .ok (.str "sha512", [errE "E104" []])
  else
    eseq (valIndex inv "digestAlgorithm") fun da =>
    if da = Value.str "sha512" then .ok (.str "sha512", [])
    else if lax then .ok (da, [])
    else if da = Value.str "sha256" then .ok (da, [warnE "W206" []])
    else .ok (.str "sha512", [errE "E105" [("digest_algorithm", da)]])

/-- validate lines 76-82: contentDirectory, returning the value
self.content_directory holds afterwards (initialized to content, assigned
only when the field is a safe string). -/
def contentDirectoryBlock (inv : Value) : Except PyErr (String × Log) :=
  eseq (valContains inv "contentDirectory") fun ccd =>
  if !ccd then .ok ("content", [])
  else
    eseq (valIndex inv "contentDirectory") fun cd =>
    match cd with
    | .str s =>
      if s.data.contains '/' || s = "." || s = ".." then .ok ("content", [errE "E051" []])
      else .ok (s, [])
    | _ => .ok ("content", [errE "E051" []])

/-- validate lines 83-86: the manifest block, returning manifest_files
(None when the field is missing). -/
def manifestBlock (st : IVState) (inv : Value) :
    Except PyErr (Option (List (String × String)) × Log) :=
  eseq (valContains inv "manifest") fun cm =>
  if !cm then .ok (none, [errE "E107" []])
  else
    eseq (valIndex inv "manifest") fun mv =>
    eseq (validate_manifest st mv) fun r => .ok (some r.1, r.2)

/-- validate lines 87-91: the versions block, returning all_versions and
digests_used (None when the field is missing and the Python local is never
bound). -/
def versionsBlock (sdt : String → Except String Unit) (st : IVState) (inv : Value) :
    Except PyErr (List String × Option (List String) × Log) :=
  eseq (valContains inv "versions") fun cv =>
  if !cv then .ok ([], none, [errE "E108" []])
  else
    eseq (valIndex inv "versions") fun vv =>
    let r1 := validate_version_sequence vv
    eseq (validate_versions sdt st vv r1.1) fun r2 =>
    .ok (r1.1, some r2.1, r1.2 ++ r2.2)

/-- validate lines 92-97: the head block.  self.head is assigned from
all_versions before the comparison, so an empty valid sequence raises
IndexError here. -/
def headBlock (inv : Value) (avs : List String) : Except PyErr (Option String × Log) :=
  eseq (valContains inv "head") fun ch =>
  if ch then
    match avs.getLast? with
    | none => .error .indexError
    | some h =>
      eseq (valIndex inv "head") fun hv =>
      .ok (some h, if hv = Value.str h then []
                   else [errE "E914" [("got", hv), ("expected", .str h)]])
  else .ok (none, [errE "E106" []])

/-- validate lines 98-99: the manifest/state cross-check, guarded on both
fields being present.  When the guard passes, digests_used was bound by the
versions block; the impossible unbound case is the NameError Python would
raise. -/
def usageBlock (inv : Value) (du : Option (List String)) : Except PyErr Log :=
  eseq (valContains inv "manifest") fun cm =>
  eseq (valContains inv "versions") fun cv =>
  if cm && cv then
    eseq (valIndex inv "manifest") fun mv =>
    match du with
    | some d => check_digests_present_and_used mv d
    | none => .error .nameError
  else .ok []

/-- InventoryValidator.validate: the retained snapshot plus every
diagnostic, in program order, or the Python fault that aborts the run.
sdt models str_to_datetime from the external w3c_datetime module (error =
the ValueError description); every theorem below quantifies over it. -/
def validate (sdt : String → Except String Unit) (lax : Bool) (inventory : Value) :
    Except PyErr (IVState × Log) :=
  eseq (idBlock inventory) fun lg1 =>
  eseq (typeBlock inventory) fun lg2 =>
  eseq (digestAlgorithmBlock lax inventory) fun r3 =>
  eseq (contentDirectoryBlock inventory) fun r4 =>
  let st1 : IVState := ⟨inventory, r3.1, r4.1, none, [], none, lax⟩
  eseq (manifestBlock st1 inventory) fun r5 =>
  let st2 := { st1 with manifest_files := r5.1 }
  eseq (versionsBlock sdt st2 inventory) fun r6 =>
  let st3 := { st2 with all_versions := r6.1 }
  eseq (headBlock inventory r6.1) fun r7 =>
  let st4 := { st3 with head := r7.1 }
  eseq (usageBlock inventory r6.2.1) fun lg8 =>
  .ok (st4, lg1 ++ lg2 ++ r3.2 ++ r4.2 ++ r5.2 ++ r6.2.2 ++ r7.2 ++ lg8)

/-! ### get_file_map and validate_as_prior_version -/

/-- The per-digest inner loop of get_file_map: map each logical file to the
manifest's path list for the digest.  Unhashable files (lists, dicts) raise
TypeError as dict keys. -/
def addFiles (mval : Value) : List Value → List (Value × Value) →
    Except PyErr (List (Value × Value))
  | [], fm => .ok fm
  | f :: t, fm =>
    match f with
    | .arr _ => .error .typeError
    | .obj _ => .error .typeError
    | _ => addFiles mval t (alSet fm f mval)

/-- The loop of get_file_map over the state entries: digests found in the
manifest contribute their files; others are skipped. -/
def gfmLoop (mEntries : List (String × Value)) :
    List (String × Value) → List (Value × Value) → Except PyErr (List (Value × Value))
  | [], fm => .ok fm
  | (digest, files) :: rest, fm =>
    match alGet mEntries digest with
    | some mval =>
      eseq (pyIter files) fun fl =>
      eseq (addFiles mval fl fm) fun fm2 => gfmLoop mEntries rest fm2
    | none => gfmLoop mEntries rest fm

/-- get_file_map (module level): the map from logical file to manifest path
list for one version directory.  Iterating a non-dict state, or membership
tests against a non-dict manifest, are modelled as the TypeError of the
mismatched shapes (the source documents both inventories as already
validated). -/
def get_file_map (inventory : Value) (version_dir : String) :
    Except PyErr (List (Value × Value)) :=
  eseq (valIndex inventory "versions") fun vs =>
  eseq (valIndex vs version_dir) fun ver =>
  eseq (valIndex ver "state") fun stateV =>
  eseq (valIndex inventory "manifest") fun manifestV =>
  match stateV, manifestV with
  | .obj sEntries, .obj mEntries => gfmLoop mEntries sEntries []
  | _, _ => .error .typeError

/-- self.head rendered as a value for diagnostic arguments (None when
validate never set it). -/
def optHead : Option String → Value
  | none => .null
  | some s => .str s

/-- The per-file comparison of validate_as_prior_version: identical digest
values (here: identical manifest path lists) required for every shared
logical file.  The key sets were already checked equal, so the lookup into
the current map is Python's d[k] with KeyError modelled for the impossible
miss. -/
def fvLoop (smap : List (Value × Value)) (v : String) (ph : Value) :
    List (Value × Value) → Except PyErr Log
  | [] => .ok []
  | (f, pv) :: rest =>
    match alGet smap f with
    | some sv =>
      eseq (fvLoop smap v ph rest) fun lg =>
      .ok ((if pv = sv then []
            else [errE "E410" [("version_dir", .str v), ("prior_head", ph), ("file", f)]]) ++ lg)
    | none => .error .keyError

/-- The loop of validate_as_prior_version over the prior's version
directories: file-map key sets must agree, then every file's value. -/
def vapvFileCheck (priorInv selfInv : Value) (ph : Value) :
    List String → Except PyErr Log
  | [] => .ok []
  | v :: rest =>
    eseq (get_file_map priorInv v) fun pmap =>
    eseq (get_file_map selfInv v) fun smap =>
    eseq (if setEqB (pmap.map Prod.fst) (smap.map Prod.fst) = false then
            .ok [errE "E409" [("version_dir", .str v), ("prior_head", ph)]]
          else fvLoop smap v ph pmap) fun lg1 =>
    eseq (vapvFileCheck priorInv selfInv ph rest) fun lg2 =>
    .ok (lg1 ++ lg2)

/-- The metadata comparison at the end of validate_as_prior_version.  In
the source this sits after the version loop and reuses its loop variable,
so it runs once, for the last version directory of the prior's sequence
(NameError when that sequence is empty); dict.get on a non-dict version
raises AttributeError. -/
def metaCheck (priorInv selfInv : Value) (vd : String) (ph : Value) :
    Except PyErr Log :=
  eseq (valIndex priorInv "versions") fun pvs =>
  eseq (valIndex pvs vd) fun pver =>
  eseq (valIndex selfInv "versions") fun svs =>
  eseq (valIndex svs vd) fun sver =>
  match pver, sver with
  | .obj pf, .obj sf =>
    let mk := fun (key : String) =>
      if alGet pf key = alGet sf key then ([] : Log)
      else [warnE "W212" [("version_dir", .str vd), ("prior_head", ph), ("key", .str key)]]
    .ok (mk "created" ++ mk "message" ++ mk "user")
  | _, _ => .error .attributeError

/-- InventoryValidator.validate_as_prior_version, over two retained
snapshots: subset of versions, subset of manifest files, per-version file
maps, then the (single) metadata comparison. -/
def validate_as_prior_version (prior slf : IVState) : Except PyErr Log :=
  if subsetB prior.all_versions slf.all_versions = false then
    .ok [errE "E407" [("prior_head", optHead prior.head)]]
  else
    match prior.manifest_files, slf.manifest_files with
    | some pmf, some smf =>
      if subsetB (pmf.map Prod.fst) (smf.map Prod.fst) = false then
        .ok [errE "E408" [("prior_head", optHead prior.head)]]
      else
        eseq (vapvFileCheck prior.inventory slf.inventory (optHead prior.head)
                prior.all_versions) fun lg1 =>
        match prior.all_versions.getLast? with
        | none => .error .nameError
        | some vd =>
          eseq (metaCheck prior.inventory slf.inventory vd (optHead prior.head)) fun lg2 =>
          .ok (lg1 ++ lg2)
    | _, _ => .error .attributeError

/-! ### ValidationLogger (src/ocfl/validation_logger.py)

The code catalog is loaded from a data file outside the sources; the logger
is therefore modelled with the catalog as a field, of the shape that file
has (code to description templates per language plus ordered parameter
names).  Message parameters are strings after Python str() conversion. -/

/-- One catalog record: the optional description dict (language to
template) and the optional ordered parameter names. -/
structure CodeInfo where
  description : Option (List (String × String))
  params : Option (List String)
deriving DecidableEq

/-- The state of a ValidationLogger. -/
structure VLogger where
  warnings : Bool
  lang : String
  validation_codes : List (String × CodeInfo)
  codes : List (String × String)
  messages : List String
  num_errors : Nat
  num_warnings : Nat
deriving DecidableEq

/-- Python string comparison: lexicographic on code points. -/
def pyCharsLe : List Char → List Char → Bool
  | [], _ => true
  | _ :: _, [] => false
  | a :: as, b :: bs =>
      if a = b then pyCharsLe as bs else decide (a.toNat < b.toNat)

/-- Python a <= b on strings. -/
def pyStrLe (a b : String) : Bool := pyCharsLe a.data b.data

/-- Insert into a sorted list. -/
def insSorted (x : String) : List String → List String
  | [] => [x]
  | y :: t => if pyStrLe x y then x :: y :: t else y :: insSorted x t

/-- Python sorted on strings. -/
def pysorted : List String → List String
  | [] => []
  | x :: t => insSorted x (pysorted t)

/-- Python percent-formatting of a template against a parameter tuple,
restricted to the percent-s conversions the catalog uses (a doubled percent
is an escape).  None models the TypeError raised when the placeholder and
parameter counts disagree, which error_or_warning catches. -/
def pyFmt : List Char → List String → Option (List Char)
  | [], [] => some []
  | [], _ :: _ => none
  | '%' :: 's' :: rest, p :: ps => (pyFmt rest ps).map (fun r => p.data ++ r)
  | '%' :: 's' :: _, [] => none
  | '%' :: '%' :: rest, ps => (pyFmt rest ps).map (fun r => '%' :: r)
  | c :: rest, ps => (pyFmt rest ps).map (fun r => c :: r)

/-- Python str() of the keyword-argument dict, appended when formatting
fails (key quoting omitted). -/
def strArgs (args : List (String × String)) : String :=
  "\x7b" ++ joinComma (args.map (fun p => p.1 ++ ": " ++ p.2)) ++ "\x7d"

/-- The spec-link test of error_or_warning: the code starts with E or W and
three digits whose number is below 200. -/
def specLinked (code : String) : Bool :=
  match code.data with
  | c :: a :: b :: d :: _ =>
      (c == 'E' || c == 'W') && a.isDigit && b.isDigit && d.isDigit &&
      ((a.toNat - '0'.toNat) * 100 + (b.toNat - '0'.toNat) * 10 + (d.toNat - '0'.toNat) < 200)
  | _ => false

/-- The first regex group of the spec-link match: the code's first four
characters. -/
def codeGroup (code : String) : String := String.mk (code.data.take 4)

/-- The message rendering of ValidationLogger.error_or_warning: catalog
lookup, language fallback (configured language, then en, then the first
language alphabetically, then the no-description placeholder), parameter
substitution with question-mark placeholders for missing arguments and the
caught-TypeError fallback, then the spec link for low-numbered codes. -/
def renderMessage (vl : VLogger) (code severity : String)
    (args : List (String × String)) : String :=
  let base :=
    match alGet vl.validation_codes code with
    | some info =>
      match info.description with
      | some desc =>
        let lang_desc :=
          match alGet desc vl.lang with
          | some d => d
          | none =>
            match alGet desc "en" with
            | some d => d
            | none =>
              if desc.length > 0 then
                (alGet desc ((pysorted (desc.map Prod.fst)).headD "")).getD ""
              else "Unknown " ++ severity ++ ": %s - no description, params (%s)"
        let lang_desc2 :=
          match info.params with
          | some ps =>
            let params := ps.map (fun p => (alGet args p).getD "???")
            match pyFmt lang_desc.data params with
            | some r => String.mk r
            | none => lang_desc ++ strArgs args
          | none => lang_desc
        "[" ++ code ++ "] " ++ lang_desc2
      | none => "Unknown " ++ severity ++ ": " ++ code ++ " - params (" ++ strArgs args ++ ")"
    | none => "Unknown " ++ severity ++ ": " ++ code ++ " - params (" ++ strArgs args ++ ")"
  if specLinked code then
    base ++ " (see https://ocfl.io/draft/spec/#" ++ codeGroup code ++ ")"
  else base

/-- ValidationLogger.error_or_warning: store the last message per code,
and append to the full message list for errors always, for warnings only
when the logger was configured to show them. -/
def error_or_warning (vl : VLogger) (code severity : String)
    (args : List (String × String)) : VLogger :=
  let message := renderMessage vl code severity args
  { vl with
    codes := alSet vl.codes code message,
    messages := if severity == "error" || vl.warnings then vl.messages ++ [message]
                else vl.messages }

/-- ValidationLogger.error. -/
def vlError (vl : VLogger) (code : String) (args : List (String × String)) : VLogger :=
  let vl2 := error_or_warning vl code "error" args
  { vl2 with num_errors := vl2.num_errors + 1 }

/-- ValidationLogger.warn. -/
def vlWarn (vl : VLogger) (code : String) (args : List (String × String)) : VLogger :=
  let vl2 := error_or_warning vl code "warning" args
  { vl2 with num_warnings := vl2.num_warnings + 1 }

/-- Concatenate messages, a newline after each. -/
def joinNl : List String → String
  | [] => ""
  | m :: t => m ++ "\n" ++ joinNl t

/-- ValidationLogger.__str__: the sorted full message list, one line per
message. -/
def toReport (vl : VLogger) : String := joinNl (pysorted vl.messages)

/-! ### Concrete material used by the theorems -/

/-- True when an entry with this severity and code fired. -/
def hasSevCode (lg : Log) (s : Sev) (c : String) : Bool :=
  lg.any (fun e => e.sev == s && e.code == c)

/-- The diagnostics of a completed run ([] for an aborted one). -/
def okLog (r : Except PyErr (IVState × Log)) : Log :=
  match r with
  | .ok p => p.2
  | .error _ => []

/-- A str_to_datetime instantiation accepting every string; used to run the
model on concrete documents whose created fields are well formed. -/
def sdtAny : String → Except String Unit := fun _ => .ok ()

/-- A 128-character digest of letters a (inside [0-9a-z]). -/
def digA : String := String.mk (List.replicate 128 'a')

/-- A 128-character digest of letters b (inside [0-9a-z]). -/
def digB : String := String.mk (List.replicate 128 'b')

/-- A 128-character digest of letters z: inside [0-9a-z] but outside the
hexadecimal alphabet. -/
def digZ : String := String.mk (List.replicate 128 'z')

/-- A two-version inventory, parameterized by the message of v1, used for
the lineage-check scenario: everything else is spec-conformant and
identical across the two documents. -/
def linInv (m1 : String) : Value :=
  .obj [("id", .str "ark:xyz"),
        ("type", .str "https://ocfl.io/1.0/spec/#inventory"),
        ("digestAlgorithm", .str "sha512"),
        ("manifest", .obj [(digA, .arr [.str "v1/content/f1.txt"]),
                           (digB, .arr [.str "v2/content/f2.txt"])]),
        ("versions", .obj
          [("v1", .obj [("created", .str "2020-01-01T00:00:00Z"),
                        ("message", .str m1),
                        ("user", .obj [("name", .str "A"), ("address", .str "mailto:a")]),
                        ("state", .obj [(digA, .arr [.str "f1.txt"])])]),
           ("v2", .obj [("created", .str "2020-02-01T00:00:00Z"),
                        ("message", .str "BBB"),
                        ("user", .obj [("name", .str "A"), ("address", .str "mailto:a")]),
                        ("state", .obj [(digB, .arr [.str "f2.txt"])])])]),
        ("head", .str "v2")]

/-- The snapshot validate retains for linInv m1. -/
def linSt (m1 : String) : IVState :=
  ⟨linInv m1, .str "sha512", "content", some "v2", ["v1", "v2"],
   some [("v1/content/f1.txt", digA), ("v2/content/f2.txt", digB)], false⟩

/-- The snapshot validate retains for the empty document. -/
def emptySt : IVState := ⟨.obj [], .str "sha512", "content", none, [], none, false⟩

/-- The diagnostics validate produces for the empty document: every
required field missing. -/
def emptyLog : Log :=
  [errE "E100" [], errE "E102" [], errE "E104" [], errE "E107" [], errE "E108" [],
   errE "E106" []]

/-- The fields of a document carrying only a sha256 digest algorithm. -/
def sha256Fields : List (String × Value) := [("digestAlgorithm", .str "sha256")]

/-- The snapshot for the sha256-only document validated without lax mode. -/
def sha256St : IVState :=
  ⟨.obj sha256Fields, .str "sha256", "content", none, [], none, false⟩

/-- The diagnostics for the sha256-only document without lax mode. -/
def sha256Log : Log :=
  [errE "E100" [], errE "E102" [], warnE "W206" [], errE "E107" [], errE "E108" [],
   errE "E106" []]

/-- Fields of a document with an invalid contentDirectory and a manifest
path that misses the default content prefix. -/
def badCdFields : List (String × Value) :=
  [("contentDirectory", .str ".."),
   ("manifest", .obj [(digA, .arr [.str "v1/other/f1"])])]

/-- The snapshot for the invalid-contentDirectory document. -/
def badCdSt : IVState :=
  ⟨.obj badCdFields, .str "sha512", "content", none, [],
   some [("v1/other/f1", digA)], false⟩

/-- The diagnostics for the invalid-contentDirectory document. -/
def badCdLog : Log :=
  [errE "E100" [], errE "E102" [], errE "E104" [], errE "E051" [],
   errE "E913" [("path", .str "v1/other/f1")], errE "E108" [], errE "E106" []]

/-- A validator state in lax mode carrying a non-standard digest
algorithm, as validate adopts it from the document. -/
def laxSt : IVState := ⟨.null, .str "frobnitz", "content", none, [], none, true⟩

/-- The logger of the repeated-code scenario: no catalog entry for the code
used, warnings not shown. -/
def vl0 : VLogger := ⟨false, "en", [], [], [], 0, 0⟩

/-! ## Infrastructure lemmas

Code-possibility lemmas (each validate block can only produce its own
diagnostic codes) and behaviour lemmas for the blocks the claims single
out.  None of these is a claim theorem. -/

theorem eseq_ok {α β : Type} (a : α) (f : α → Except PyErr β) : eseq (.ok a) f = f a := rfl

theorem eseq_err {α β : Type} (e : PyErr) (f : α → Except PyErr β) :
    eseq (.error e) f = .error e := rfl

@[simp] theorem errE_code (c : String) (a : List (String × Value)) : (errE c a).code = c := rfl

@[simp] theorem warnE_code (c : String) (a : List (String × Value)) : (warnE c a).code = c := rfl

theorem hasCode_append (a b : Log) (c : String) :
    hasCode (a ++ b) c = (hasCode a c || hasCode b c) := by
  simp [hasCode]

theorem hasCodeArg_append (a b : Log) (c k : String) (v : Value) :
    hasCodeArg (a ++ b) c k v = (hasCodeArg a c k v || hasCodeArg b c k v) := by
  simp [hasCodeArg]

theorem hasCode_false {lg : Log} (cs : List String) (c : String)
    (h : ∀ e ∈ lg, e.code ∈ cs) (hc : c ∉ cs) : hasCode lg c = false := by
  simp only [hasCode, List.any_eq_false]
  intro e he hbeq
  rw [beq_iff_eq] at hbeq
  exact hc (hbeq ▸ h e he)

theorem hasCodeArg_false {lg : Log} (cs : List String) (c : String) (k : String)
    (v : Value) (h : ∀ e ∈ lg, e.code ∈ cs) (hc : c ∉ cs) :
    hasCodeArg lg c k v = false := by
  simp only [hasCodeArg, List.any_eq_false]
  intro e he
  simp only [Bool.and_eq_true, beq_iff_eq, decide_eq_true_eq, not_and]
  intro heq
  exact absurd (heq ▸ h e he) hc

theorem idBlock_codes (inv : Value) (lg : Log) (h : idBlock inv = .ok lg) :
    ∀ e ∈ lg, e.code ∈ ["E100", "E101", "W207"] := by
  unfold idBlock at h
  cases hc : valContains inv "id" with
  | error er => rw [hc] at h; exact absurd h (by simp [eseq])
  | ok b =>
    rw [hc] at h; simp only [eseq] at h
    split at h
    case isTrue =>
      cases hi : valIndex inv "id" with
      | error er => rw [hi] at h; exact absurd h (by simp [eseq])
      | ok iid =>
        rw [hi] at h; simp only [eseq] at h
        repeat' split at h
        all_goals
          first
          | (injection h with h; subst h; decide)
          | (injection h with h; subst h; intro e he;
             simp only [List.mem_singleton] at he; subst he; simp)
    case isFalse =>
      injection h with h; subst h; decide

theorem typeBlock_codes (inv : Value) (lg : Log) (h : typeBlock inv = .ok lg) :
    ∀ e ∈ lg, e.code ∈ ["E102", "E103"] := by
  unfold typeBlock at h
  cases hc : valContains inv "type" with
  | error er => rw [hc] at h; exact absurd h (by simp [eseq])
  | ok b =>
    rw [hc] at h; simp only [eseq] at h
    split at h
    case isTrue => injection h with h; subst h; decide
    case isFalse =>
      cases hi : valIndex inv "type" with
      | error er => rw [hi] at h; exact absurd h (by simp [eseq])
      | ok tv =>
        rw [hi] at h; simp only [eseq] at h
        injection h with h
        subst h
        split <;> decide

theorem daBlock_codes (lax : Bool) (inv : Value) (da : Value) (lg : Log)
    (h : digestAlgorithmBlock lax inv = .ok (da, lg)) :
    ∀ e ∈ lg, e.code ∈ ["E104", "W206", "E105"] := by
  unfold digestAlgorithmBlock at h
  cases hc : valContains inv "digestAlgorithm" with
  | error er => rw [hc] at h; exact absurd h (by simp [eseq])
  | ok b =>
    rw [hc] at h; simp only [eseq] at h
    split at h
    case isTrue =>
      injection h with h
      rw [Prod.mk.injEq] at h
      rw [← h.2]
      decide
    case isFalse =>
      cases hi : valIndex inv "digestAlgorithm" with
      | error er => rw [hi] at h; exact absurd h (by simp [eseq])
      | ok dv =>
        rw [hi] at h; simp only [eseq] at h
        repeat' split at h
        all_goals
          (injection h with h; rw [Prod.mk.injEq] at h; rw [← h.2];
           intro e he;
           (simp only [List.mem_singleton, List.not_mem_nil] at he) <;> (subst he; simp))

theorem cdBlock_codes (inv : Value) (cd : String) (lg : Log)
    (h : contentDirectoryBlock inv = .ok (cd, lg)) :
    ∀ e ∈ lg, e.code ∈ ["E051"] := by
  unfold contentDirectoryBlock at h
  cases hc : valContains inv "contentDirectory" with
  | error er => rw [hc] at h; exact absurd h (by simp [eseq])
  | ok b =>
    rw [hc] at h; simp only [eseq] at h
    split at h
    case isTrue =>
      injection h with h
      rw [Prod.mk.injEq] at h
      rw [← h.2]
      decide
    case isFalse =>
      cases hi : valIndex inv "contentDirectory" with
      | error er => rw [hi] at h; exact absurd h (by simp [eseq])
      | ok cv =>
        rw [hi] at h; simp only [eseq] at h
        repeat' split at h
        all_goals
          (injection h with h; rw [Prod.mk.injEq] at h; rw [← h.2]; decide)

theorem headBlock_codes (inv : Value) (avs : List String) (hd : Option String) (lg : Log)
    (h : headBlock inv avs = .ok (hd, lg)) :
    ∀ e ∈ lg, e.code ∈ ["E914", "E106"] := by
  unfold headBlock at h
  cases hc : valContains inv "head" with
  | error er => rw [hc] at h; exact absurd h (by simp [eseq])
  | ok b =>
    rw [hc] at h; simp only [eseq] at h
    split at h
    case isTrue =>
      split at h
      case h_1 => exact absurd h (by simp)
      case h_2 =>
        cases hi : valIndex inv "head" with
        | error er => rw [hi] at h; exact absurd h (by simp [eseq])
        | ok hv =>
          rw [hi] at h; simp only [eseq] at h
          injection h with h
          rw [Prod.mk.injEq] at h
          rw [← h.2]
          split <;>
            (intro e he;
             (simp only [List.mem_singleton, List.not_mem_nil] at he) <;> (subst he; simp))
    case isFalse =>
      injection h with h
      rw [Prod.mk.injEq] at h
      rw [← h.2]
      decide

theorem check_digests_codes (m : Value) (du : List String) (lg : Log)
    (h : check_digests_present_and_used m du = .ok lg) :
    ∀ e ∈ lg, e.code ∈ ["E913", "E302"] ∧ e.args.lookup "path" = none := by
  unfold check_digests_present_and_used at h
  simp only [] at h
  split at h
  case h_2 => exact absurd h (by simp)
  case h_1 =>
    split at h
    · injection h with h; subst h; intro e he; exact absurd he (List.not_mem_nil e)
    · repeat' split at h
      all_goals
        (injection h with h; subst h; intro e he;
         (simp only [List.mem_append, List.mem_singleton, List.not_mem_nil,
            or_false, false_or] at he) <;>
         first
         | (rcases he with rfl | rfl) <;> exact ⟨by simp, rfl⟩
         | (subst he; exact ⟨by simp, rfl⟩))

theorem usageBlock_codes (inv : Value) (du : Option (List String)) (lg : Log)
    (h : usageBlock inv du = .ok lg) :
    ∀ e ∈ lg, e.code ∈ ["E913", "E302"] ∧ e.args.lookup "path" = none := by
  unfold usageBlock at h
  cases h1 : valContains inv "manifest" with
  | error er => rw [h1] at h; exact absurd h (by simp [eseq])
  | ok cm =>
    rw [h1] at h; simp only [eseq] at h
    cases h2 : valContains inv "versions" with
    | error er => rw [h2] at h; exact absurd h (by simp [eseq])
    | ok cv =>
      rw [h2] at h; simp only [eseq] at h
      split at h
      case isTrue =>
        cases h3 : valIndex inv "manifest" with
        | error er => rw [h3] at h; exact absurd h (by simp [eseq])
        | ok mv =>
          rw [h3] at h; simp only [eseq] at h
          cases du with
          | some d => exact check_digests_codes mv d lg h
          | none => exact absurd h (by simp)
      case isFalse =>
        injection h with h; subst h; intro e he; exact absurd he (List.not_mem_nil e)

theorem seqLoop_codes (vs : List (String × Value)) (pad : Option Nat) (maxv : Nat) :
    ∀ fuel n acc, ∀ e ∈ (seqLoop vs pad maxv n fuel acc).2, e.code ∈ ["E312"] := by
  intro fuel
  induction fuel with
  | zero =>
    intro n acc e he
    unfold seqLoop at he
    split at he
    · simp at he; subst he; simp
    · simp at he
  | succ fuel ih =>
    intro n acc e he
    unfold seqLoop at he
    simp only [] at he
    split at he
    · exact ih (n + 1) (acc ++ [vfmt pad n]) e he
    · split at he
      · simp at he; subst he; simp
      · simp at he

theorem validate_version_sequence_codes (versions : Value) :
    ∀ e ∈ (validate_version_sequence versions).2,
      e.code ∈ ["E310", "E311", "W203", "E312"] := by
  intro e he
  unfold validate_version_sequence at he
  split at he
  case h_2 => simp at he; subst he; simp
  case h_1 =>
    split at he
    · have := seqLoop_codes _ _ _ _ _ _ e he
      simp at this
      simp [this]
    · split at he
      case h_1 =>
        simp only [List.mem_cons] at he
        rcases he with rfl | he
        · simp
        · have := seqLoop_codes _ _ _ _ _ _ e he
          simp at this
          simp [this]
      case h_2 => simp at he; subst he; simp

theorem hasCodeArg_cons (x : LogEntry) (l : Log) (c k : String) (v : Value) :
    hasCodeArg (x :: l) c k v =
      ((x.code == c && decide (x.args.lookup k = some v)) || hasCodeArg l c k v) := rfl

theorem mem_sub {x : String} {as bs : List String} (h : x ∈ as)
    (hsub : ∀ y ∈ as, y ∈ bs) : x ∈ bs := hsub x h

theorem fileLoop_shape (st : IVState) (digest : String) :
    ∀ (files : List Value) (mf r : List (String × String)) (lg : Log),
      fileLoop st digest files mf = .ok (r, lg) →
      ∀ e ∈ lg, e.code = "E913" ∧ ∃ p, e.args = [("path", Value.str p)] ∧
        is_valid_content_path st.content_directory p = false := by
  intro files
  induction files with
  | nil =>
    intro mf r lg h e he
    unfold fileLoop at h
    injection h with h
    rw [Prod.mk.injEq] at h
    rw [← h.2] at he
    exact absurd he (List.not_mem_nil e)
  | cons f rest ih =>
    intro mf r lg h e he
    unfold fileLoop at h
    split at h
    all_goals try exact absurd h (by simp)
    case h_1 p =>
      cases hr : fileLoop st digest rest (alSet mf p digest) with
      | error er => rw [hr] at h; exact absurd h (by simp [eseq])
      | ok pr =>
        rw [hr] at h; simp only [eseq] at h
        injection h with h
        rw [Prod.mk.injEq] at h
        rw [← h.2] at he
        rw [List.mem_append] at he
        rcases he with he | he
        · split at he
          · exact absurd he (List.not_mem_nil e)
          · simp only [List.mem_singleton] at he
            subst he
            refine ⟨rfl, p, rfl, ?_⟩
            simp_all
        · exact ih _ _ _ hr e he

theorem manifestLoop_codes (st : IVState) :
    ∀ (entries : List (String × Value)) (mf r : List (String × String)) (lg : Log),
      manifestLoop st entries mf = .ok (r, lg) →
      (∀ e ∈ lg, e.code ∈ ["E304", "E308", "E913"]) ∧
      (∀ e ∈ lg, e.code = "E913" → ∃ p, e.args = [("path", Value.str p)] ∧
         is_valid_content_path st.content_directory p = false) := by
  intro entries
  induction entries with
  | nil =>
    intro mf r lg h
    unfold manifestLoop at h
    injection h with h
    rw [Prod.mk.injEq] at h
    rw [← h.2]
    exact ⟨by simp, by simp⟩
  | cons ent rest ih =>
    obtain ⟨digest, val⟩ := ent
    intro mf r lg h
    unfold manifestLoop at h
    cases hx : digest_regex st with
    | error er => rw [hx] at h; exact absurd h (by simp [eseq])
    | ok rx =>
    rw [hx] at h; simp only [eseq] at h
    split at h
    case isTrue hTest =>
      cases hr : manifestLoop st rest mf with
      | error er => rw [hr] at h; exact absurd h (by simp [eseq])
      | ok pr =>
        rw [hr] at h; simp only [eseq] at h
        injection h with h
        rw [Prod.mk.injEq] at h
        obtain ⟨ihc, ihs⟩ := ih mf pr.1 pr.2 (by rw [hr])
        rw [← h.2]
        refine ⟨?_, ?_⟩
        · intro e he
          rcases List.mem_cons.mp he with rfl | he
          · simp
          · exact ihc e he
        · intro e he hne
          rcases List.mem_cons.mp he with rfl | he
          · exact absurd hne (by simp)
          · exact ihs e he hne
    case isFalse hTest =>
      split at h
      case h_1 files =>
        cases hf : fileLoop st digest files mf with
        | error er => rw [hf] at h; exact absurd h (by simp [eseq])
        | ok rf =>
          rw [hf] at h; simp only [eseq] at h
          cases hr : manifestLoop st rest rf.1 with
          | error er => rw [hr] at h; exact absurd h (by simp [eseq])
          | ok pr =>
            rw [hr] at h; simp only [eseq] at h
            injection h with h
            rw [Prod.mk.injEq] at h
            obtain ⟨ihc, ihs⟩ := ih rf.1 pr.1 pr.2 (by rw [hr])
            have hfs := fileLoop_shape st digest files mf rf.1 rf.2 (by rw [hf])
            rw [← h.2]
            refine ⟨?_, ?_⟩
            · intro e he
              rcases List.mem_append.mp he with he | he
              · rw [(hfs e he).1]; simp
              · exact ihc e he
            · intro e he hne
              rcases List.mem_append.mp he with he | he
              · exact (hfs e he).2
              · exact ihs e he hne
      case h_2 =>
        cases hr : manifestLoop st rest mf with
        | error er => rw [hr] at h; exact absurd h (by simp [eseq])
        | ok pr =>
          rw [hr] at h; simp only [eseq] at h
          injection h with h
          rw [Prod.mk.injEq] at h
          obtain ⟨ihc, ihs⟩ := ih mf pr.1 pr.2 (by rw [hr])
          rw [← h.2]
          refine ⟨?_, ?_⟩
          · intro e he
            rcases List.mem_cons.mp he with rfl | he
            · simp
            · exact ihc e he
          · intro e he hne
            rcases List.mem_cons.mp he with rfl | he
            · exact absurd hne (by simp)
            · exact ihs e he hne

theorem manifestLoop_e304 (st : IVState) (rx : DigestRegex)
    (hrx : digest_regex st = .ok rx) :
    ∀ (entries : List (String × Value)) (mf r : List (String × String)) (lg : Log),
      manifestLoop st entries mf = .ok (r, lg) →
      ∀ d : String, (hasCodeArg lg "E304" "digest" (.str d) = true ↔
        ∃ v, (d, v) ∈ entries ∧ rx.test d = false) := by
  intro entries
  induction entries with
  | nil =>
    intro mf r lg h d
    unfold manifestLoop at h
    injection h with h
    rw [Prod.mk.injEq] at h
    rw [← h.2]
    simp [hasCodeArg]
  | cons ent rest ih =>
    obtain ⟨digest, val⟩ := ent
    intro mf r lg h d
    unfold manifestLoop at h
    rw [hrx] at h; simp only [eseq] at h
    split at h
    case isTrue hTest =>
      cases hr : manifestLoop st rest mf with
      | error er => rw [hr] at h; exact absurd h (by simp [eseq])
      | ok pr =>
        rw [hr] at h; simp only [eseq] at h
        injection h with h
        rw [Prod.mk.injEq] at h
        have ihq := ih mf pr.1 pr.2 (by rw [hr]) d
        rw [← h.2]
        rw [hasCodeArg_cons]
        by_cases hd : d = digest
        · subst hd
          have hhead : ((errE "E304" [("digest", Value.str d)]).code == "E304" &&
              decide ((errE "E304" [("digest", Value.str d)]).args.lookup "digest" =
                some (Value.str d))) = true := by
            rw [show (errE "E304" [("digest", Value.str d)]).args.lookup "digest" =
              some (Value.str d) from rfl]
            simp
          rw [hhead, Bool.true_or]
          constructor
          · intro _
            exact ⟨val, List.mem_cons_self _ _, hTest⟩
          · intro _
            rfl
        · have hhead : ((errE "E304" [("digest", Value.str digest)]).code == "E304" &&
              decide ((errE "E304" [("digest", Value.str digest)]).args.lookup "digest" =
                some (Value.str d))) = false := by
            rw [show (errE "E304" [("digest", Value.str digest)]).args.lookup "digest" =
              some (Value.str digest) from rfl]
            rw [show ((errE "E304" [("digest", Value.str digest)]).code == "E304") = true
              from rfl]
            rw [Bool.true_and]
            rw [decide_eq_false]
            intro hq
            injection hq with h2
            injection h2 with h3
            exact hd h3.symm
          rw [hhead, Bool.false_or, ihq]
          constructor
          · intro hex
            obtain ⟨v, hv, htv⟩ := hex
            exact ⟨v, List.mem_cons_of_mem _ hv, htv⟩
          · intro hex
            obtain ⟨v, hv, htv⟩ := hex
            rcases List.mem_cons.mp hv with heq | hv
            · exact absurd (congrArg Prod.fst heq) hd
            · exact ⟨v, hv, htv⟩
    case isFalse hTest =>
      have hTestT : rx.test digest = true := by
        cases hb : rx.test digest
        · exact absurd hb hTest
        · rfl
      split at h
      case h_1 files =>
        cases hf : fileLoop st digest files mf with
        | error er => rw [hf] at h; exact absurd h (by simp [eseq])
        | ok rf =>
          rw [hf] at h; simp only [eseq] at h
          cases hr : manifestLoop st rest rf.1 with
          | error er => rw [hr] at h; exact absurd h (by simp [eseq])
          | ok pr =>
            rw [hr] at h; simp only [eseq] at h
            injection h with h
            rw [Prod.mk.injEq] at h
            have ihq := ih rf.1 pr.1 pr.2 (by rw [hr]) d
            have hfs := fileLoop_shape st digest files mf rf.1 rf.2 (by rw [hf])
            rw [← h.2]
            rw [hasCodeArg_append]
            have hleft : hasCodeArg rf.2 "E304" "digest" (.str d) = false := by
              apply hasCodeArg_false ["E913"] "E304" "digest" (.str d)
              · intro e he
                rw [(hfs e he).1]; simp
              · decide
            rw [hleft, Bool.false_or, ihq]
            constructor
            · intro hex
              obtain ⟨v, hv, htv⟩ := hex
              exact ⟨v, List.mem_cons_of_mem _ hv, htv⟩
            · intro hex
              obtain ⟨v, hv, htv⟩ := hex
              rcases List.mem_cons.mp hv with heq | hv
              · exfalso
                have hdd : d = digest := congrArg Prod.fst heq
                rw [hdd, hTestT] at htv
                exact absurd htv (by decide)
              · exact ⟨v, hv, htv⟩
      case h_2 =>
        cases hr : manifestLoop st rest mf with
        | error er => rw [hr] at h; exact absurd h (by simp [eseq])
        | ok pr =>
          rw [hr] at h; simp only [eseq] at h
          injection h with h
          rw [Prod.mk.injEq] at h
          have ihq := ih mf pr.1 pr.2 (by rw [hr]) d
          rw [← h.2]
          rw [hasCodeArg_cons]
          have hhead : ((errE "E308" [("digest", Value.str digest)]).code == "E304" &&
              decide ((errE "E308" [("digest", Value.str digest)]).args.lookup "digest" =
                some (Value.str d))) = false := by
            rw [show ((errE "E308" [("digest", Value.str digest)]).code == "E304") = false
              from rfl]
            rw [Bool.false_and]
          rw [hhead, Bool.false_or, ihq]
          constructor
          · intro hex
            obtain ⟨v, hv, htv⟩ := hex
            exact ⟨v, List.mem_cons_of_mem _ hv, htv⟩
          · intro hex
            obtain ⟨v, hv, htv⟩ := hex
            rcases List.mem_cons.mp hv with heq | hv
            · exfalso
              have hdd : d = digest := congrArg Prod.fst heq
              rw [hdd, hTestT] at htv
              exact absurd htv (by decide)
            · exact ⟨v, hv, htv⟩

theorem stateLoop_codes (st : IVState) :
    ∀ (entries : List (String × Value)) (r : List String) (lg : Log),
      stateLoop st entries = .ok (r, lg) →
      ∀ e ∈ lg, e.code ∈ ["E305"] := by
  intro entries
  induction entries with
  | nil =>
    intro r lg h e he
    unfold stateLoop at h
    injection h with h
    rw [Prod.mk.injEq] at h
    rw [← h.2] at he
    exact absurd he (List.not_mem_nil e)
  | cons ent rest ih =>
    obtain ⟨digest, val⟩ := ent
    intro r lg h e he
    unfold stateLoop at h
    cases hx : digest_regex st with
    | error er => rw [hx] at h; exact absurd h (by simp [eseq])
    | ok rx =>
    rw [hx] at h; simp only [eseq] at h
    split at h
    case isTrue =>
      cases hr : stateLoop st rest with
      | error er => rw [hr] at h; exact absurd h (by simp [eseq])
      | ok pr =>
        rw [hr] at h; simp only [eseq] at h
        injection h with h
        rw [Prod.mk.injEq] at h
        rw [← h.2] at he
        rcases List.mem_cons.mp he with rfl | he
        · simp
        · exact ih pr.1 pr.2 (by rw [hr]) e he
    case isFalse =>
      cases hi : pyIter val with
      | error er => rw [hi] at h; exact absurd h (by simp [eseq])
      | ok fl =>
        rw [hi] at h; simp only [eseq] at h
        cases hr : stateLoop st rest with
        | error er => rw [hr] at h; exact absurd h (by simp [eseq])
        | ok pr =>
          rw [hr] at h; simp only [eseq] at h
          injection h with h
          rw [Prod.mk.injEq] at h
          rw [← h.2] at he
          exact ih pr.1 pr.2 (by rw [hr]) e he

theorem stateLoop_e305 (st : IVState) (rx : DigestRegex)
    (hrx : digest_regex st = .ok rx) :
    ∀ (entries : List (String × Value)) (r : List String) (lg : Log),
      stateLoop st entries = .ok (r, lg) →
      ∀ d : String, (hasCodeArg lg "E305" "digest" (.str d) = true ↔
        ∃ v, (d, v) ∈ entries ∧ rx.test d = false) := by
  intro entries
  induction entries with
  | nil =>
    intro r lg h d
    unfold stateLoop at h
    injection h with h
    rw [Prod.mk.injEq] at h
    rw [← h.2]
    simp [hasCodeArg]
  | cons ent rest ih =>
    obtain ⟨digest, val⟩ := ent
    intro r lg h d
    unfold stateLoop at h
    rw [hrx] at h; simp only [eseq] at h
    split at h
    case isTrue hTest =>
      cases hr : stateLoop st rest with
      | error er => rw [hr] at h; exact absurd h (by simp [eseq])
      | ok pr =>
        rw [hr] at h; simp only [eseq] at h
        injection h with h
        rw [Prod.mk.injEq] at h
        have ihq := ih pr.1 pr.2 (by rw [hr]) d
        rw [← h.2]
        rw [hasCodeArg_cons]
        by_cases hd : d = digest
        · subst hd
          have hhead : ((errE "E305" [("digest", Value.str d)]).code == "E305" &&
              decide ((errE "E305" [("digest", Value.str d)]).args.lookup "digest" =
                some (Value.str d))) = true := by
            rw [show (errE "E305" [("digest", Value.str d)]).args.lookup "digest" =
              some (Value.str d) from rfl]
            simp
          rw [hhead, Bool.true_or]
          constructor
          · intro _
            exact ⟨val, List.mem_cons_self _ _, hTest⟩
          · intro _
            rfl
        · have hhead : ((errE "E305" [("digest", Value.str digest)]).code == "E305" &&
              decide ((errE "E305" [("digest", Value.str digest)]).args.lookup "digest" =
                some (Value.str d))) = false := by
            rw [show (errE "E305" [("digest", Value.str digest)]).args.lookup "digest" =
              some (Value.str digest) from rfl]
            rw [show ((errE "E305" [("digest", Value.str digest)]).code == "E305") = true
              from rfl]
            rw [Bool.true_and]
            rw [decide_eq_false]
            intro hq
            injection hq with h2
            injection h2 with h3
            exact hd h3.symm
          rw [hhead, Bool.false_or, ihq]
          constructor
          · intro hex
            obtain ⟨v, hv, htv⟩ := hex
            exact ⟨v, List.mem_cons_of_mem _ hv, htv⟩
          · intro hex
            obtain ⟨v, hv, htv⟩ := hex
            rcases List.mem_cons.mp hv with heq | hv
            · exact absurd (congrArg Prod.fst heq) hd
            · exact ⟨v, hv, htv⟩
    case isFalse hTest =>
      have hTestT : rx.test digest = true := by
        cases hb : rx.test digest
        · exact absurd hb hTest
        · rfl
      cases hi : pyIter val with
      | error er => rw [hi] at h; exact absurd h (by simp [eseq])
      | ok fl =>
        rw [hi] at h; simp only [eseq] at h
        cases hr : stateLoop st rest with
        | error er => rw [hr] at h; exact absurd h (by simp [eseq])
        | ok pr =>
          rw [hr] at h; simp only [eseq] at h
          injection h with h
          rw [Prod.mk.injEq] at h
          have ihq := ih pr.1 pr.2 (by rw [hr]) d
          rw [← h.2]
          rw [ihq]
          constructor
          · intro hex
            obtain ⟨v, hv, htv⟩ := hex
            exact ⟨v, List.mem_cons_of_mem _ hv, htv⟩
          · intro hex
            obtain ⟨v, hv, htv⟩ := hex
            rcases List.mem_cons.mp hv with heq | hv
            · exfalso
              have hdd : d = digest := congrArg Prod.fst heq
              rw [hdd, hTestT] at htv
              exact absurd htv (by decide)
            · exact ⟨v, hv, htv⟩

theorem validate_state_block_codes (st : IVState) (state : Value) (r : List String)
    (lg : Log) (h : validate_state_block st state = .ok (r, lg)) :
    ∀ e ∈ lg, e.code ∈ ["E912", "E305"] := by
  unfold validate_state_block at h
  split at h
  case h_1 entries =>
    cases hx : digest_regex st with
    | error er => rw [hx] at h; exact absurd h (by simp [eseq])
    | ok rx =>
      rw [hx] at h; simp only [eseq] at h
      intro e he
      have := stateLoop_codes st entries r lg h e he
      exact mem_sub this (by decide)
  case h_2 =>
    injection h with h
    rw [Prod.mk.injEq] at h
    rw [← h.2]
    intro e he
    simp only [List.mem_singleton] at he
    subst he
    simp

theorem createdCheck_codes (sdt : String → Except String Unit) (version : Value)
    (v : String) (lg : Log) (h : createdCheck sdt version v = .ok lg) :
    ∀ e ∈ lg, e.code ∈ ["E401", "E402", "W208", "W209"] := by
  unfold createdCheck at h
  cases hc : valContains version "created" with
  | error er => rw [hc] at h; exact absurd h (by simp [eseq])
  | ok b =>
    rw [hc] at h; simp only [eseq] at h
    split at h
    case isFalse =>
      injection h with h; subst h
      intro e he
      simp only [List.mem_singleton] at he
      subst he
      simp
    case isTrue =>
      cases hi : valIndex version "created" with
      | error er => rw [hi] at h; exact absurd h (by simp [eseq])
      | ok cv =>
        rw [hi] at h; simp only [eseq] at h
        split at h
        case h_2 =>
          injection h with h; subst h
          intro e he
          simp only [List.mem_singleton] at he
          subst he
          simp
        case h_1 s =>
          split at h
          case h_1 =>
            injection h with h; subst h
            intro e he
            rw [List.mem_append] at he
            rcases he with he | he <;>
              (split at he <;>
                first
                | exact absurd he (List.not_mem_nil e)
                | (simp only [List.mem_singleton] at he; subst he; simp))
          case h_2 er =>
            injection h with h; subst h
            intro e he
            simp only [List.mem_singleton] at he
            subst he
            simp

theorem stateCheck_codes (st : IVState) (version : Value) (v : String)
    (r : List String) (lg : Log) (h : stateCheck st version v = .ok (r, lg)) :
    ∀ e ∈ lg, e.code ∈ ["E410", "E912", "E305"] := by
  unfold stateCheck at h
  cases hc : valContains version "state" with
  | error er => rw [hc] at h; exact absurd h (by simp [eseq])
  | ok b =>
    rw [hc] at h; simp only [eseq] at h
    split at h
    case isFalse =>
      injection h with h
      rw [Prod.mk.injEq] at h
      rw [← h.2]
      intro e he
      simp only [List.mem_singleton] at he
      subst he
      simp
    case isTrue =>
      cases hi : valIndex version "state" with
      | error er => rw [hi] at h; exact absurd h (by simp [eseq])
      | ok sv =>
        rw [hi] at h; simp only [eseq] at h
        intro e he
        have := validate_state_block_codes st sv r lg h e he
        exact mem_sub this (by decide)

theorem messageCheck_codes (version : Value) (v : String) (lg : Log)
    (h : messageCheck version v = .ok lg) :
    ∀ e ∈ lg, e.code ∈ ["W201", "E403"] := by
  unfold messageCheck at h
  cases hc : valContains version "message" with
  | error er => rw [hc] at h; exact absurd h (by simp [eseq])
  | ok b =>
    rw [hc] at h; simp only [eseq] at h
    split at h
    case isTrue =>
      injection h with h; subst h
      intro e he
      simp only [List.mem_singleton] at he
      subst he
      simp
    case isFalse =>
      cases hi : valIndex version "message" with
      | error er => rw [hi] at h; exact absurd h (by simp [eseq])
      | ok mv =>
        rw [hi] at h; simp only [eseq] at h
        split at h
        all_goals
          (injection h with h; subst h; intro e he;
           (simp only [List.mem_singleton, List.not_mem_nil] at he) <;> (subst he; simp))

theorem userCheck_codes (version : Value) (v : String) (lg : Log)
    (h : userCheck version v = .ok lg) :
    ∀ e ∈ lg, e.code ∈ ["W202", "E404", "E405", "W210", "E406"] := by
  unfold userCheck at h
  cases hc : valContains version "user" with
  | error er => rw [hc] at h; exact absurd h (by simp [eseq])
  | ok b =>
    rw [hc] at h; simp only [eseq] at h
    split at h
    case isTrue =>
      injection h with h; subst h
      intro e he
      simp only [List.mem_singleton] at he
      subst he
      simp
    case isFalse =>
      cases hi : valIndex version "user" with
      | error er => rw [hi] at h; exact absurd h (by simp [eseq])
      | ok uv =>
        rw [hi] at h; simp only [eseq] at h
        split at h
        case h_2 =>
          injection h with h; subst h
          intro e he
          simp only [List.mem_singleton] at he
          subst he
          simp
        case h_1 ufields =>
          injection h with h; subst h
          intro e he
          rw [List.mem_append] at he
          rcases he with he | he <;>
            (split at he <;>
              first
              | exact absurd he (List.not_mem_nil e)
              | (simp only [List.mem_singleton] at he; subst he; simp))

theorem oneVersionCheck_codes (sdt : String → Except String Unit) (st : IVState)
    (versionsV : Value) (v : String) (r : List String) (lg : Log)
    (h : oneVersionCheck sdt st versionsV v = .ok (r, lg)) :
    ∀ e ∈ lg, e.code ∈ ["E401", "E402", "W208", "W209", "E410", "E912", "E305",
      "W201", "E403", "W202", "E404", "E405", "W210", "E406"] := by
  unfold oneVersionCheck at h
  cases h0 : valIndex versionsV v with
  | error er => rw [h0] at h; exact absurd h (by simp [eseq])
  | ok version =>
  rw [h0] at h; simp only [eseq] at h
  cases h1 : createdCheck sdt version v with
  | error er => rw [h1] at h; exact absurd h (by simp [eseq])
  | ok lgC =>
  rw [h1] at h; simp only [eseq] at h
  cases h2 : stateCheck st version v with
  | error er => rw [h2] at h; exact absurd h (by simp [eseq])
  | ok rs =>
  rw [h2] at h; simp only [eseq] at h
  cases h3 : messageCheck version v with
  | error er => rw [h3] at h; exact absurd h (by simp [eseq])
  | ok lgM =>
  rw [h3] at h; simp only [eseq] at h
  cases h4 : userCheck version v with
  | error er => rw [h4] at h; exact absurd h (by simp [eseq])
  | ok lgU =>
  rw [h4] at h; simp only [eseq] at h
  injection h with h
  rw [Prod.mk.injEq] at h
  rw [← h.2]
  intro e he
  rw [List.mem_append] at he
  rcases he with he | he
  · rw [List.mem_append] at he
    rcases he with he | he
    · rw [List.mem_append] at he
      rcases he with he | he
      · exact mem_sub (createdCheck_codes sdt version v lgC h1 e he) (by decide)
      · exact mem_sub (stateCheck_codes st version v rs.1 rs.2 (by rw [h2]) e he) (by decide)
    · exact mem_sub (messageCheck_codes version v lgM h3 e he) (by decide)
  · exact mem_sub (userCheck_codes version v lgU h4 e he) (by decide)

theorem validate_versions_codes (sdt : String → Except String Unit) (st : IVState)
    (versionsV : Value) :
    ∀ (avs : List String) (r : List String) (lg : Log),
      validate_versions sdt st versionsV avs = .ok (r, lg) →
      ∀ e ∈ lg, e.code ∈ ["E401", "E402", "W208", "W209", "E410", "E912", "E305",
        "W201", "E403", "W202", "E404", "E405", "W210", "E406"] := by
  intro avs
  induction avs with
  | nil =>
    intro r lg h e he
    unfold validate_versions at h
    injection h with h
    rw [Prod.mk.injEq] at h
    rw [← h.2] at he
    exact absurd he (List.not_mem_nil e)
  | cons v rest ih =>
    intro r lg h e he
    unfold validate_versions at h
    cases h1 : oneVersionCheck sdt st versionsV v with
    | error er => rw [h1] at h; exact absurd h (by simp [eseq])
    | ok r1 =>
      rw [h1] at h; simp only [eseq] at h
      cases h2 : validate_versions sdt st versionsV rest with
      | error er => rw [h2] at h; exact absurd h (by simp [eseq])
      | ok r2 =>
        rw [h2] at h; simp only [eseq] at h
        injection h with h
        rw [Prod.mk.injEq] at h
        rw [← h.2] at he
        rw [List.mem_append] at he
        rcases he with he | he
        · exact oneVersionCheck_codes sdt st versionsV v r1.1 r1.2 (by rw [h1]) e he
        · exact ih r2.1 r2.2 (by rw [h2]) e he

theorem manifestBlock_codes (st : IVState) (inv : Value)
    (mf : Option (List (String × String))) (lg : Log)
    (h : manifestBlock st inv = .ok (mf, lg)) :
    (∀ e ∈ lg, e.code ∈ ["E107", "E307", "E304", "E308", "E913"]) ∧
    (∀ e ∈ lg, e.code = "E913" → ∃ p, e.args = [("path", Value.str p)] ∧
       is_valid_content_path st.content_directory p = false) := by
  unfold manifestBlock at h
  cases hc : valContains inv "manifest" with
  | error er => rw [hc] at h; exact absurd h (by simp [eseq])
  | ok b =>
    rw [hc] at h; simp only [eseq] at h
    split at h
    case isTrue =>
      injection h with h
      rw [Prod.mk.injEq] at h
      rw [← h.2]
      refine ⟨by decide, ?_⟩
      intro e he
      simp only [List.mem_singleton] at he
      subst he
      intro hne
      exact absurd hne (by decide)
    case isFalse =>
      cases hi : valIndex inv "manifest" with
      | error er => rw [hi] at h; exact absurd h (by simp [eseq])
      | ok mv =>
        rw [hi] at h; simp only [eseq] at h
        cases hm : validate_manifest st mv with
        | error er => rw [hm] at h; exact absurd h (by simp [eseq])
        | ok rm =>
          rw [hm] at h; simp only [eseq] at h
          injection h with h
          rw [Prod.mk.injEq] at h
          rw [← h.2]
          unfold validate_manifest at hm
          split at hm
          case h_1 entries =>
            obtain ⟨hcode, hshape⟩ := manifestLoop_codes st entries [] rm.1 rm.2 (by rw [hm])
            refine ⟨?_, hshape⟩
            intro e he
            exact mem_sub (hcode e he) (by decide)
          case h_2 =>
            injection hm with hm
            rw [Prod.mk.injEq] at hm
            rw [← hm.2]
            refine ⟨by decide, ?_⟩
            intro e he
            simp only [List.mem_singleton] at he
            subst he
            intro hne
            exact absurd hne (by decide)

theorem versionsBlock_codes (sdt : String → Except String Unit) (st : IVState)
    (inv : Value) (avs : List String) (du : Option (List String)) (lg : Log)
    (h : versionsBlock sdt st inv = .ok (avs, du, lg)) :
    ∀ e ∈ lg, e.code ∈ ["E108", "E310", "E311", "W203", "E312",
      "E401", "E402", "W208", "W209", "E410", "E912", "E305",
      "W201", "E403", "W202", "E404", "E405", "W210", "E406"] := by
  unfold versionsBlock at h
  cases hc : valContains inv "versions" with
  | error er => rw [hc] at h; exact absurd h (by simp [eseq])
  | ok b =>
    rw [hc] at h; simp only [eseq] at h
    split at h
    case isTrue =>
      injection h with h
      rw [Prod.mk.injEq] at h
      obtain ⟨h1, h2⟩ := h
      rw [Prod.mk.injEq] at h2
      rw [← h2.2]
      decide
    case isFalse =>
      cases hi : valIndex inv "versions" with
      | error er => rw [hi] at h; exact absurd h (by simp [eseq])
      | ok vv =>
        rw [hi] at h; simp only [eseq] at h
        cases hv : validate_versions sdt st vv (validate_version_sequence vv).1 with
        | error er => rw [hv] at h; exact absurd h (by simp [eseq])
        | ok r2 =>
          rw [hv] at h; simp only [eseq] at h
          injection h with h
          rw [Prod.mk.injEq] at h
          obtain ⟨h1, h2⟩ := h
          rw [Prod.mk.injEq] at h2
          rw [← h2.2]
          intro e he
          rw [List.mem_append] at he
          rcases he with he | he
          · exact mem_sub (validate_version_sequence_codes vv e he) (by decide)
          · exact mem_sub
              (validate_versions_codes sdt st vv (validate_version_sequence vv).1
                r2.1 r2.2 (by rw [hv]) e he) (by decide)

theorem hasSevCode_append (a b : Log) (s : Sev) (c : String) :
    hasSevCode (a ++ b) s c = (hasSevCode a s c || hasSevCode b s c) := by
  simp [hasSevCode]

theorem hasSevCode_false {lg : Log} (cs : List String) (c : String) (s : Sev)
    (h : ∀ e ∈ lg, e.code ∈ cs) (hc : c ∉ cs) :
    hasSevCode lg s c = false := by
  simp only [hasSevCode, List.any_eq_false]
  intro e he
  simp only [Bool.and_eq_true, beq_iff_eq, not_and]
  intro _ heq
  exact hc (heq ▸ h e he)

theorem hasCodeArg_false_of_no_key {lg : Log} {k : String}
    (h : ∀ e ∈ lg, e.args.lookup k = none) (c : String) (v : Value) :
    hasCodeArg lg c k v = false := by
  simp only [hasCodeArg, List.any_eq_false]
  intro e he
  rw [h e he]
  simp

theorem e913_path_invalid {lg : Log} {cdv : String}
    (hshape : ∀ e ∈ lg, e.code = "E913" → ∃ p, e.args = [("path", Value.str p)] ∧
       is_valid_content_path cdv p = false) (p : String)
    (h : hasCodeArg lg "E913" "path" (.str p) = true) :
    is_valid_content_path cdv p = false := by
  simp only [hasCodeArg, List.any_eq_true] at h
  obtain ⟨e, he, hcond⟩ := h
  rw [Bool.and_eq_true] at hcond
  obtain ⟨hcode, harg⟩ := hcond
  rw [beq_iff_eq] at hcode
  rw [decide_eq_true_eq] at harg
  obtain ⟨p2, hargs, hval⟩ := hshape e he hcode
  rw [hargs] at harg
  have hsome : List.lookup "path" [("path", Value.str p2)] = some (Value.str p2) := rfl
  rw [hsome] at harg
  have hv2 : Value.str p2 = Value.str p := by injection harg
  injection hv2 with hp
  rw [← hp]
  exact hval

theorem daBlock_inv (lax : Bool) (inv : Value) (da : Value) (lg : Log)
    (h : digestAlgorithmBlock lax inv = .ok (da, lg)) :
    da = .str "sha512" ∨ da = .str "sha256" ∨ lax = true := by
  unfold digestAlgorithmBlock at h
  cases hc : valContains inv "digestAlgorithm" with
  | error er => rw [hc] at h; exact absurd h (by simp [eseq])
  | ok b =>
    rw [hc] at h; simp only [eseq] at h
    split at h
    case isTrue =>
      injection h with h
      rw [Prod.mk.injEq] at h
      exact Or.inl h.1.symm
    case isFalse =>
      cases hi : valIndex inv "digestAlgorithm" with
      | error er => rw [hi] at h; exact absurd h (by simp [eseq])
      | ok dv =>
        rw [hi] at h; simp only [eseq] at h
        split at h
        case isTrue h1 =>
          injection h with h
          rw [Prod.mk.injEq] at h
          exact Or.inl h.1.symm
        case isFalse h1 =>
          split at h
          case isTrue h2 =>
            exact Or.inr (Or.inr h2)
          case isFalse h2 =>
            split at h
            case isTrue h3 =>
              injection h with h
              rw [Prod.mk.injEq] at h
              exact Or.inr (Or.inl (h.1 ▸ h3))
            case isFalse h3 =>
              injection h with h
              rw [Prod.mk.injEq] at h
              exact Or.inl h.1.symm

theorem daBlock_spec (lax : Bool) (fields : List (String × Value)) (da : Value) (lg : Log)
    (h : digestAlgorithmBlock lax (.obj fields) = .ok (da, lg))
    (hda : alGet fields "digestAlgorithm" = some (.str "sha256")) :
    da = .str "sha256" ∧ (hasSevCode lg .warn "W206" = true ↔ lax = false) := by
  have hres : digestAlgorithmBlock lax (.obj fields) =
      (if lax = true then .ok (Value.str "sha256", ([] : Log))
       else .ok (Value.str "sha256", [warnE "W206" []])) := by
    cases lax <;> simp [digestAlgorithmBlock, eseq, valContains, valIndex, hda]
  rw [hres] at h
  cases lax with
  | true =>
    rw [if_pos rfl] at h
    injection h with h
    rw [Prod.mk.injEq] at h
    refine ⟨h.1.symm, ?_⟩
    rw [← h.2]
    constructor
    · intro hw
      exact absurd hw (by decide)
    · intro hw
      exact absurd hw (by decide)
  | false =>
    rw [if_neg (by decide)] at h
    injection h with h
    rw [Prod.mk.injEq] at h
    refine ⟨h.1.symm, ?_⟩
    rw [← h.2]
    constructor
    · intro _
      rfl
    · intro _
      decide

theorem cdBlock_spec (fields : List (String × Value)) (cd : String) (lg : Log)
    (h : contentDirectoryBlock (.obj fields) = .ok (cd, lg)) :
    ∀ w, alGet fields "contentDirectory" = some w →
      (((∀ s, w ≠ Value.str s) ∨ ∃ s, w = Value.str s ∧
          (s.data.contains '/' = true ∨ s = "." ∨ s = "..")) →
        cd = "content" ∧ hasSevCode lg .err "E051" = true) ∧
      (∀ s, w = Value.str s → s.data.contains '/' = false → s ≠ "." → s ≠ ".." →
        cd = s ∧ lg = []) := by
  intro w hw
  unfold contentDirectoryBlock at h
  have hcv : valContains (.obj fields) "contentDirectory" =
      .ok (alGet fields "contentDirectory").isSome := rfl
  rw [hcv, hw] at h
  simp only [eseq, Option.isSome_some, Bool.not_true, Bool.false_eq_true,
    if_false] at h
  have hiv : valIndex (.obj fields) "contentDirectory" = .ok w := by
    simp [valIndex, hw]
  rw [hiv] at h
  simp only [eseq] at h
  split at h
  case h_1 s =>
    split at h
    case isTrue hbad =>
      injection h with h
      rw [Prod.mk.injEq] at h
      constructor
      · intro _
        exact ⟨h.1.symm, by rw [← h.2]; decide⟩
      · intro s2 hs2 hslash hdot hdotdot
        exfalso
        injection hs2 with hs2
        subst hs2
        rcases Bool.or_eq_true_iff.mp hbad with hb | hb
        · rcases Bool.or_eq_true_iff.mp hb with hb2 | hb2
          · rw [hslash] at hb2; exact absurd hb2 (by decide)
          · exact hdot (by simpa using hb2)
        · exact hdotdot (by simpa using hb)
    case isFalse hbad =>
      injection h with h
      rw [Prod.mk.injEq] at h
      constructor
      · intro hprem
        exfalso
        rcases hprem with hp | hp
        · exact hp s rfl
        · obtain ⟨s2, hs2, hcond⟩ := hp
          injection hs2 with hs2
          subst hs2
          apply hbad
          rcases hcond with hc | hc | hc
          · exact Bool.or_eq_true_iff.mpr (Or.inl (Bool.or_eq_true_iff.mpr (Or.inl hc)))
          · exact Bool.or_eq_true_iff.mpr (Or.inl (Bool.or_eq_true_iff.mpr
              (Or.inr (by simp [hc]))))
          · exact Bool.or_eq_true_iff.mpr (Or.inr (by simp [hc]))
      · intro s2 hs2 _ _ _
        injection hs2 with hs2
        subst hs2
        exact ⟨h.1.symm, h.2.symm⟩
  case h_2 hnot =>
    injection h with h
    rw [Prod.mk.injEq] at h
    constructor
    · intro _
      exact ⟨h.1.symm, by rw [← h.2]; decide⟩
    · intro s2 hs2 _ _ _
      exfalso
      exact hnot s2 hs2

theorem headBlock_spec (fields : List (String × Value)) (avs : List String)
    (hd : Option String) (lg : Log)
    (h : headBlock (.obj fields) avs = .ok (hd, lg)) :
    ((hasSevCode lg .err "E914" = true) ↔
      (∃ hv l, alGet fields "head" = some hv ∧ avs.getLast? = some l ∧
        hv ≠ Value.str l)) ∧
    ((hasSevCode lg .err "E106" = true) ↔ alGet fields "head" = none) := by
  unfold headBlock at h
  have hcv : valContains (.obj fields) "head" =
      .ok (alGet fields "head").isSome := rfl
  rw [hcv] at h
  simp only [eseq] at h
  cases hg : alGet fields "head" with
  | none =>
    rw [hg] at h
    simp only [Option.isSome_none, Bool.false_eq_true, if_false] at h
    injection h with h
    rw [Prod.mk.injEq] at h
    rw [← h.2]
    constructor
    · constructor
      · intro hw
        exact absurd hw (by decide)
      · intro hex
        obtain ⟨hv, l, hlk, _, _⟩ := hex
        exact absurd hlk (by simp)
    · constructor
      · intro _
        rfl
      · intro _
        decide
  | some hv =>
    rw [hg] at h
    simp only [Option.isSome_some, if_true] at h
    cases hl : avs.getLast? with
    | none => rw [hl] at h; exact absurd h (by simp)
    | some l =>
      rw [hl] at h
      have hiv : valIndex (.obj fields) "head" = .ok hv := by
        simp [valIndex, hg]
      rw [hiv] at h
      simp only [eseq] at h
      injection h with h
      rw [Prod.mk.injEq] at h
      rw [← h.2]
      by_cases heq : hv = Value.str l
      · rw [if_pos heq]
        constructor
        · constructor
          · intro hw
            exact absurd hw (by decide)
          · intro hex
            obtain ⟨hv2, l2, hlk2, hl2, hne2⟩ := hex
            injection hlk2 with hlk2
            injection hl2 with hl2
            subst hlk2
            subst hl2
            exact absurd heq hne2
        · constructor
          · intro hw
            exact absurd hw (by decide)
          · intro hn
            exact absurd hn (by simp)
      · rw [if_neg heq]
        constructor
        · constructor
          · intro _
            exact ⟨hv, l, rfl, rfl, heq⟩
          · intro _
            rfl
        · constructor
          · intro hw
            exact absurd hw (by simp [hasSevCode, errE])
          · intro hn
            exact absurd hn (by simp)

theorem validate_decomp (sdt : String → Except String Unit) (lax : Bool)
    (inventory : Value) (st : IVState) (lg : Log)
    (h : validate sdt lax inventory = .ok (st, lg)) :
    ∃ lg1 lg2 da lg3 cd lg4 mf lg5 avs du lg6 hd lg7 lg8,
      idBlock inventory = .ok lg1 ∧
      typeBlock inventory = .ok lg2 ∧
      digestAlgorithmBlock lax inventory = .ok (da, lg3) ∧
      contentDirectoryBlock inventory = .ok (cd, lg4) ∧
      manifestBlock ⟨inventory, da, cd, none, [], none, lax⟩ inventory = .ok (mf, lg5) ∧
      versionsBlock sdt ⟨inventory, da, cd, none, [], mf, lax⟩ inventory =
        .ok (avs, du, lg6) ∧
      headBlock inventory avs = .ok (hd, lg7) ∧
      usageBlock inventory du = .ok lg8 ∧
      st = ⟨inventory, da, cd, hd, avs, mf, lax⟩ ∧
      lg = lg1 ++ lg2 ++ lg3 ++ lg4 ++ lg5 ++ lg6 ++ lg7 ++ lg8 := by
  unfold validate at h
  cases h1 : idBlock inventory with
  | error er => rw [h1] at h; exact absurd h (by simp [eseq])
  | ok lg1 =>
  rw [h1] at h; simp only [eseq] at h
  cases h2 : typeBlock inventory with
  | error er => rw [h2] at h; exact absurd h (by simp [eseq])
  | ok lg2 =>
  rw [h2] at h; simp only [eseq] at h
  cases h3 : digestAlgorithmBlock lax inventory with
  | error er => rw [h3] at h; exact absurd h (by simp [eseq])
  | ok r3 =>
  rw [h3] at h; simp only [eseq] at h
  cases h4 : contentDirectoryBlock inventory with
  | error er => rw [h4] at h; exact absurd h (by simp [eseq])
  | ok r4 =>
  rw [h4] at h; simp only [eseq] at h
  cases h5 : manifestBlock ⟨inventory, r3.1, r4.1, none, [], none, lax⟩ inventory with
  | error er => rw [h5] at h; exact absurd h (by simp [eseq])
  | ok r5 =>
  rw [h5] at h; simp only [eseq] at h
  cases h6 : versionsBlock sdt ⟨inventory, r3.1, r4.1, none, [], r5.1, lax⟩ inventory with
  | error er => rw [h6] at h; exact absurd h (by simp [eseq])
  | ok r6 =>
  rw [h6] at h; simp only [eseq] at h
  cases h7 : headBlock inventory r6.1 with
  | error er => rw [h7] at h; exact absurd h (by simp [eseq])
  | ok r7 =>
  rw [h7] at h; simp only [eseq] at h
  cases h8 : usageBlock inventory r6.2.1 with
  | error er => rw [h8] at h; exact absurd h (by simp [eseq])
  | ok lg8 =>
  rw [h8] at h; simp only [eseq] at h
  injection h with h
  rw [Prod.mk.injEq] at h
  exact ⟨lg1, lg2, r3.1, r3.2, r4.1, r4.2, r5.1, r5.2, r6.1, r6.2.1, r6.2.2,
    r7.1, r7.2, lg8, rfl, rfl, rfl, rfl, (by rw [h5]), (by rw [h6]), (by rw [h7]),
    h8, h.1.symm, h.2.symm⟩

/-! ### Exception-freedom: the raise in digest_regex is the only Exception
site; every other fault constructor is a distinct PyErr. -/

theorem eseq_no_exc {α β : Type} {x : Except PyErr α} {f : α → Except PyErr β}
    (hx : ∀ m, x ≠ .error (.exception m))
    (hf : ∀ a, ∀ m, f a ≠ .error (.exception m)) :
    ∀ m, eseq x f ≠ .error (.exception m) := by
  intro m
  cases hx2 : x with
  | error e =>
    rw [eseq_err]
    intro hcon
    injection hcon with hcon
    exact hx m (by rw [hx2, hcon])
  | ok a =>
    rw [eseq_ok]
    exact hf a m

theorem eseq_no_exc_post {α β : Type} {x : Except PyErr α} {f : α → Except PyErr β}
    {P : α → Prop}
    (hx : ∀ m, x ≠ .error (.exception m))
    (hpost : ∀ a, x = .ok a → P a)
    (hf : ∀ a, P a → ∀ m, f a ≠ .error (.exception m)) :
    ∀ m, eseq x f ≠ .error (.exception m) := by
  intro m
  cases hx2 : x with
  | error e =>
    rw [eseq_err]
    intro hcon
    injection hcon with hcon
    exact hx m (by rw [hx2, hcon])
  | ok a =>
    rw [eseq_ok]
    exact hf a (hpost a hx2) m

theorem valContains_no_exc (v : Value) (k : String) :
    ∀ m, valContains v k ≠ .error (.exception m) := by
  intro m
  unfold valContains
  (repeat' split) <;> simp

theorem valIndex_no_exc (v : Value) (k : String) :
    ∀ m, valIndex v k ≠ .error (.exception m) := by
  intro m
  unfold valIndex
  (repeat' split) <;> simp

theorem pyIter_no_exc (v : Value) :
    ∀ m, pyIter v ≠ .error (.exception m) := by
  intro m
  unfold pyIter
  (repeat' split) <;> simp

theorem digest_regex_ok (st : IVState)
    (hinv : st.digest_algorithm = .str "sha512" ∨ st.digest_algorithm = .str "sha256" ∨
      st.lax_digests = true) :
    ∃ rx, digest_regex st = .ok rx := by
  unfold digest_regex
  split
  · exact ⟨_, rfl⟩
  · split
    · exact ⟨_, rfl⟩
    · split
      · exact ⟨_, rfl⟩
      · rename_i n1 n2 n3
        rcases hinv with hq | hq | hq
        · exact absurd hq n1
        · exact absurd hq n2
        · exact absurd hq (by simpa using n3)

theorem fileLoop_no_exc (st : IVState) (digest : String) :
    ∀ (files : List Value) (mf : List (String × String)) m,
      fileLoop st digest files mf ≠ .error (.exception m) := by
  intro files
  induction files with
  | nil => intro mf m; unfold fileLoop; simp
  | cons f rest ih =>
    intro mf m
    unfold fileLoop
    cases f
    case str p =>
      exact eseq_no_exc (fun m2 => ih _ m2) (fun r m2 => by simp) m
    all_goals simp

theorem manifestLoop_no_exc (st : IVState) (rx : DigestRegex)
    (hrx : digest_regex st = .ok rx) :
    ∀ (entries : List (String × Value)) (mf : List (String × String)) m,
      manifestLoop st entries mf ≠ .error (.exception m) := by
  intro entries
  induction entries with
  | nil => intro mf m; unfold manifestLoop; simp
  | cons ent rest ih =>
    obtain ⟨digest, val⟩ := ent
    intro mf m
    unfold manifestLoop
    simp only [hrx, eseq_ok]
    split
    · exact eseq_no_exc (fun m2 => ih mf m2) (fun r m2 => by simp) m
    · split
      case h_1 files =>
        exact eseq_no_exc (fileLoop_no_exc st digest files mf)
          (fun rf => eseq_no_exc (fun m2 => ih rf.1 m2) (fun r m2 => by simp)) m
      case h_2 =>
        exact eseq_no_exc (fun m2 => ih mf m2) (fun r m2 => by simp) m

theorem validate_manifest_no_exc (st : IVState)
    (hrx : ∃ rx, digest_regex st = .ok rx) (mv : Value) :
    ∀ m, validate_manifest st mv ≠ .error (.exception m) := by
  obtain ⟨rx, hrx⟩ := hrx
  intro m
  unfold validate_manifest
  split
  case h_1 entries => exact manifestLoop_no_exc st rx hrx entries [] m
  case h_2 => simp

theorem stateLoop_no_exc (st : IVState) (rx : DigestRegex)
    (hrx : digest_regex st = .ok rx) :
    ∀ (entries : List (String × Value)) m,
      stateLoop st entries ≠ .error (.exception m) := by
  intro entries
  induction entries with
  | nil => intro m; unfold stateLoop; simp
  | cons ent rest ih =>
    obtain ⟨digest, val⟩ := ent
    intro m
    unfold stateLoop
    simp only [hrx, eseq_ok]
    split
    · exact eseq_no_exc (fun m2 => ih m2) (fun r m2 => by simp) m
    · exact eseq_no_exc (pyIter_no_exc val)
        (fun fl => eseq_no_exc (fun m2 => ih m2) (fun r m2 => by simp)) m

theorem validate_state_block_no_exc (st : IVState)
    (hrx : ∃ rx, digest_regex st = .ok rx) (sv : Value) :
    ∀ m, validate_state_block st sv ≠ .error (.exception m) := by
  obtain ⟨rx, hrx⟩ := hrx
  intro m
  unfold validate_state_block
  split
  case h_1 entries =>
    rw [hrx]
    rw [eseq_ok]
    exact stateLoop_no_exc st rx hrx entries m
  case h_2 => simp

theorem createdCheck_no_exc (sdt : String → Except String Unit) (version : Value)
    (v : String) : ∀ m, createdCheck sdt version v ≠ .error (.exception m) := by
  unfold createdCheck
  apply eseq_no_exc (valContains_no_exc version "created")
  intro hc m
  split
  · exact eseq_no_exc (valIndex_no_exc version "created")
      (fun cv m2 => by (repeat' split) <;> simp) m
  · simp

theorem stateCheck_no_exc (st : IVState) (hrx : ∃ rx, digest_regex st = .ok rx)
    (version : Value) (v : String) :
    ∀ m, stateCheck st version v ≠ .error (.exception m) := by
  unfold stateCheck
  apply eseq_no_exc (valContains_no_exc version "state")
  intro hs m
  split
  · exact eseq_no_exc (valIndex_no_exc version "state")
      (fun sv => validate_state_block_no_exc st hrx sv) m
  · simp

theorem messageCheck_no_exc (version : Value) (v : String) :
    ∀ m, messageCheck version v ≠ .error (.exception m) := by
  unfold messageCheck
  apply eseq_no_exc (valContains_no_exc version "message")
  intro hm m
  split
  · simp
  · exact eseq_no_exc (valIndex_no_exc version "message")
      (fun mv m2 => by (repeat' split) <;> simp) m

theorem userCheck_no_exc (version : Value) (v : String) :
    ∀ m, userCheck version v ≠ .error (.exception m) := by
  unfold userCheck
  apply eseq_no_exc (valContains_no_exc version "user")
  intro hu m
  split
  · simp
  · exact eseq_no_exc (valIndex_no_exc version "user")
      (fun uv m2 => by (repeat' split) <;> simp) m

theorem oneVersionCheck_no_exc (sdt : String → Except String Unit) (st : IVState)
    (hrx : ∃ rx, digest_regex st = .ok rx) (versionsV : Value) (v : String) :
    ∀ m, oneVersionCheck sdt st versionsV v ≠ .error (.exception m) := by
  unfold oneVersionCheck
  apply eseq_no_exc (valIndex_no_exc versionsV v)
  intro version
  apply eseq_no_exc (createdCheck_no_exc sdt version v)
  intro lgC
  apply eseq_no_exc (stateCheck_no_exc st hrx version v)
  intro rs
  apply eseq_no_exc (messageCheck_no_exc version v)
  intro lgM
  apply eseq_no_exc (userCheck_no_exc version v)
  intro lgU m
  simp

theorem validate_versions_no_exc (sdt : String → Except String Unit) (st : IVState)
    (hrx : ∃ rx, digest_regex st = .ok rx) (versionsV : Value) :
    ∀ (avs : List String) m,
      validate_versions sdt st versionsV avs ≠ .error (.exception m) := by
  intro avs
  induction avs with
  | nil => intro m; unfold validate_versions; simp
  | cons v rest ih =>
    intro m
    unfold validate_versions
    exact eseq_no_exc (oneVersionCheck_no_exc sdt st hrx versionsV v)
      (fun r1 => eseq_no_exc (fun m2 => ih m2) (fun r2 m2 => by simp)) m

theorem check_digests_no_exc (mv : Value) (du : List String) :
    ∀ m, check_digests_present_and_used mv du ≠ .error (.exception m) := by
  intro m
  unfold check_digests_present_and_used
  simp only []
  (repeat' split) <;> simp

theorem idBlock_no_exc (inv : Value) : ∀ m, idBlock inv ≠ .error (.exception m) := by
  unfold idBlock
  apply eseq_no_exc (valContains_no_exc inv "id")
  intro b m
  split
  · exact eseq_no_exc (valIndex_no_exc inv "id")
      (fun iid m2 => by (repeat' split) <;> simp) m
  · simp

theorem typeBlock_no_exc (inv : Value) : ∀ m, typeBlock inv ≠ .error (.exception m) := by
  unfold typeBlock
  apply eseq_no_exc (valContains_no_exc inv "type")
  intro b m
  split
  · simp
  · exact eseq_no_exc (valIndex_no_exc inv "type")
      (fun tv m2 => by (repeat' split) <;> simp) m

theorem daBlock_no_exc (lax : Bool) (inv : Value) :
    ∀ m, digestAlgorithmBlock lax inv ≠ .error (.exception m) := by
  unfold digestAlgorithmBlock
  apply eseq_no_exc (valContains_no_exc inv "digestAlgorithm")
  intro b m
  split
  · simp
  · exact eseq_no_exc (valIndex_no_exc inv "digestAlgorithm")
      (fun da m2 => by (repeat' split) <;> simp) m

theorem cdBlock_no_exc (inv : Value) :
    ∀ m, contentDirectoryBlock inv ≠ .error (.exception m) := by
  unfold contentDirectoryBlock
  apply eseq_no_exc (valContains_no_exc inv "contentDirectory")
  intro b m
  split
  · simp
  · exact eseq_no_exc (valIndex_no_exc inv "contentDirectory")
      (fun cv m2 => by (repeat' split) <;> simp) m

theorem manifestBlock_no_exc (st : IVState)
    (hrx : ∃ rx, digest_regex st = .ok rx) (inv : Value) :
    ∀ m, manifestBlock st inv ≠ .error (.exception m) := by
  unfold manifestBlock
  apply eseq_no_exc (valContains_no_exc inv "manifest")
  intro b m
  split
  · simp
  · exact eseq_no_exc (valIndex_no_exc inv "manifest")
      (fun mv => eseq_no_exc (validate_manifest_no_exc st hrx mv)
        (fun r m2 => by simp)) m

theorem versionsBlock_no_exc (sdt : String → Except String Unit) (st : IVState)
    (hrx : ∃ rx, digest_regex st = .ok rx) (inv : Value) :
    ∀ m, versionsBlock sdt st inv ≠ .error (.exception m) := by
  unfold versionsBlock
  apply eseq_no_exc (valContains_no_exc inv "versions")
  intro b m
  split
  · simp
  · exact eseq_no_exc (valIndex_no_exc inv "versions")
      (fun vv => eseq_no_exc
        (validate_versions_no_exc sdt st hrx vv (validate_version_sequence vv).1)
        (fun r2 m2 => by simp)) m

theorem headBlock_no_exc (inv : Value) (avs : List String) :
    ∀ m, headBlock inv avs ≠ .error (.exception m) := by
  unfold headBlock
  apply eseq_no_exc (valContains_no_exc inv "head")
  intro b m
  split
  · split
    · simp
    · exact eseq_no_exc (valIndex_no_exc inv "head")
        (fun hv m2 => by split <;> simp) m
  · simp

theorem usageBlock_no_exc (inv : Value) (du : Option (List String)) :
    ∀ m, usageBlock inv du ≠ .error (.exception m) := by
  unfold usageBlock
  apply eseq_no_exc (valContains_no_exc inv "manifest")
  intro cm
  apply eseq_no_exc (valContains_no_exc inv "versions")
  intro cv m
  split
  · refine eseq_no_exc (valIndex_no_exc inv "manifest") (fun mv m2 => ?_) m
    cases du with
    | some d => exact check_digests_no_exc mv d m2
    | none => simp
  · simp

theorem validate_no_exc (sdt : String → Except String Unit) (lax : Bool)
    (inventory : Value) :
    ∀ m, validate sdt lax inventory ≠ .error (.exception m) := by
  unfold validate
  apply eseq_no_exc (idBlock_no_exc inventory)
  intro lg1
  apply eseq_no_exc (typeBlock_no_exc inventory)
  intro lg2
  apply eseq_no_exc_post (daBlock_no_exc lax inventory)
    (fun r3 h3 => daBlock_inv lax inventory r3.1 r3.2 (by rw [h3]))
  intro r3 hP3
  apply eseq_no_exc (cdBlock_no_exc inventory)
  intro r4
  simp only []
  apply eseq_no_exc
    (manifestBlock_no_exc ⟨inventory, r3.1, r4.1, none, [], none, lax⟩
      (digest_regex_ok _ hP3) inventory)
  intro r5
  try simp only []
  apply eseq_no_exc
    (versionsBlock_no_exc sdt ⟨inventory, r3.1, r4.1, none, [], r5.1, lax⟩
      (digest_regex_ok _ hP3) inventory)
  intro r6
  try simp only []
  apply eseq_no_exc (headBlock_no_exc inventory r6.1)
  intro r7
  try simp only []
  apply eseq_no_exc (usageBlock_no_exc inventory r6.2.1)
  intro lg8 m
  simp

/-! ## Theorems for the claims -/

/-- C8: the version-sequence resolver on the four documented key sets:
{v1,v2,v3} gives [v1,v2,v3] with no diagnostic; {v01,v02} gives [v01,v02]
plus the padding warning W203; {v1,v3} gives [v1] plus sequence error E312;
{v1,v2,v99} gives a sequence error E312 for the out-of-sequence entry. -/
theorem c8_version_sequence_cases :
    validate_version_sequence (.obj [("v1", .null), ("v2", .null), ("v3", .null)]) =
      (["v1", "v2", "v3"], []) ∧
    validate_version_sequence (.obj [("v01", .null), ("v02", .null)]) =
      (["v01", "v02"], [warnE "W203" []]) ∧
    validate_version_sequence (.obj [("v1", .null), ("v3", .null)]) =
      (["v1"], [errE "E312" []]) ∧
    validate_version_sequence (.obj [("v1", .null), ("v2", .null), ("v99", .null)]) =
      (["v1", "v2"], [errE "E312" []]) := by
  refine ⟨?_, ?_, ?_, ?_⟩ <;> rfl

/-- C1 (claim refuted by the code): on the document with only a head field,
validate raises IndexError at self.all_versions[-1] instead of logging and
completing the pass — the missing-versions diagnostics E100..E108 are
reported, but the run aborts rather than terminating normally. -/
theorem c1_validate_raises_on_head_only :
    validate sdtAny false (.obj [("head", .str "v1")]) = .error .indexError := by
  rfl

/-- C2 (claim refuted by the code): two inventories sharing version
directories v1 and v2, both validating cleanly, whose v1 message metadata
differs (AAA versus CHANGED) while v2 agrees.  validate_as_prior_version
emits no W212 at all — the metadata comparison sits after the version loop
and examines only the final loop value v2 — although the claim requires a
warning naming v1. -/
theorem c2_no_warning_for_earlier_version :
    validate sdtAny false (linInv "AAA") = .ok (linSt "AAA", []) ∧
    validate sdtAny false (linInv "CHANGED") = .ok (linSt "CHANGED", []) ∧
    (eseq (valIndex (linInv "AAA") "versions") fun vs =>
       eseq (valIndex vs "v1") fun v => valIndex v "message") = .ok (.str "AAA") ∧
    (eseq (valIndex (linInv "CHANGED") "versions") fun vs =>
       eseq (valIndex vs "v1") fun v => valIndex v "message") = .ok (.str "CHANGED") ∧
    ("AAA" : String) ≠ "CHANGED" ∧
    validate_as_prior_version (linSt "AAA") (linSt "CHANGED") = .ok [] := by
  refine ⟨?_, ?_, ?_, ?_, by decide, ?_⟩ <;> rfl

/-- C3 (claim refuted by the code): under sha512 a manifest key of 128
letters z — characters outside the lowercase hexadecimal alphabet, since
z exceeds f — is accepted by validate_manifest with no digest-format error
E304 (the source pattern is [0-9a-z], all lowercase alphanumerics, not
lowercase hex). -/
theorem c3_z_digest_accepted :
    validate_manifest default (.obj [(digZ, .arr [])]) = .ok ([], []) ∧
    digZ.data.length = 128 ∧
    (∀ c ∈ digZ.data, c = 'z') ∧
    ¬ (('0' ≤ 'z' ∧ 'z' ≤ '9') ∨ ('a' ≤ 'z' ∧ 'z' ≤ 'f')) := by
  refine ⟨rfl, by decide, by decide, by decide⟩

/-- C4 (claim refuted by the code): the empty document has no head field,
yet validate reports error E106 for the missing head (head is required by
the code, not optional). -/
theorem c4_missing_head_is_error :
    hasSevCode (okLog (validate sdtAny false (.obj []))) .err "E106" = true ∧
    alGet ([] : List (String × Value)) "head" = none := by
  exact ⟨rfl, rfl⟩

/-- C5 (claim refuted by the code): firing the same code twice produces two
report lines, not one — the report is built from the full message list, not
from the per-code map, which does retain a single (last) message. -/
theorem c5_repeated_code_two_lines :
    (vlError (vlError vl0 "E999" []) "E999" []).codes.map Prod.fst = ["E999"] ∧
    (vlError (vlError vl0 "E999" []) "E999" []).messages.length = 2 ∧
    toReport (vlError (vlError vl0 "E999" []) "E999" []) =
      "Unknown error: E999 - params (\x7b\x7d)\nUnknown error: E999 - params (\x7b\x7d)\n" := by
  refine ⟨rfl, rfl, by decide⟩

/-- C6 (claim refuted by the code): in lax mode a sha256 inventory adopts
the algorithm through the lax branch, which is tested before the sha256
branch, so the discouraged-algorithm warning W206 is not emitted. -/
theorem c6_lax_sha256_no_warning :
    (match validate sdtAny true (.obj [("digestAlgorithm", .str "sha256")]) with
     | .ok (st, lg) => st.digest_algorithm = Value.str "sha256" ∧ hasCode lg "W206" = false
     | .error _ => False) := by
  exact ⟨rfl, rfl⟩

/-- C7 (claim refuted by the code): in lax mode with a non-standard
algorithm adopted, the empty-string manifest digest key is accepted — the
permissive pattern matches the empty string, so no digest-format error E304
fires, although the claim requires empty strings to be rejected. -/
theorem c7_empty_digest_accepted :
    hasCode (okLog (validate sdtAny true
      (.obj [("digestAlgorithm", .str "frobnitz"), ("manifest", .obj [("", .arr [])])])))
      "E304" = false ∧
    (match validate sdtAny true
      (.obj [("digestAlgorithm", .str "frobnitz"), ("manifest", .obj [("", .arr [])])]) with
     | .ok (st, _) => st.digest_algorithm = Value.str "frobnitz" ∧ st.lax_digests = true
     | .error _ => False) := by
  exact ⟨rfl, rfl, rfl⟩

theorem hexMatch_iff (n : Nat) (s : String) :
    hexMatch n s = true ↔
      ((s.data.length = n ∧ ∀ c ∈ s.data, ('0' ≤ c ∧ c ≤ '9') ∨ ('a' ≤ c ∧ c ≤ 'z')) ∨
       (s.data.length = n + 1 ∧
         (∀ c ∈ s.data.take n, ('0' ≤ c ∧ c ≤ '9') ∨ ('a' ≤ c ∧ c ≤ 'z')) ∧
         s.data.getLast? = some '\n')) := by
  unfold hexMatch isLowerAlnum
  simp [List.all_eq_true, Bool.or_eq_true, Bool.and_eq_true, decide_eq_true_eq]
  tauto

theorem laxMatch_iff (s : String) :
    laxMatch s = false ↔ ∃ c ∈ s.data.dropLast, c = '\n' := by
  unfold laxMatch
  rw [Bool.eq_false_iff]
  simp [List.all_eq_true]

/-- C3 (amended): under sha512, a manifest digest key (error E304) or a
state digest key (error E305) is accepted exactly when it is 128 characters
drawn from the lowercase alphanumerics 0-9 and a-z — all lowercase letters,
not only the hexadecimal ones — optionally followed by one trailing
newline, which the Python dollar anchor also accepts; every other string is
rejected with the digest-format error.  Likewise 64 characters under
sha256. -/
theorem c3_amended_digest_format (st : IVState) :
    (st.digest_algorithm = .str "sha512" →
      (∀ entries r lg, validate_manifest st (.obj entries) = .ok (r, lg) →
        ∀ d v, (d, v) ∈ entries →
          (hasCodeArg lg "E304" "digest" (.str d) = true ↔
            ¬ ((d.data.length = 128 ∧
                  ∀ c ∈ d.data, ('0' ≤ c ∧ c ≤ '9') ∨ ('a' ≤ c ∧ c ≤ 'z')) ∨
               (d.data.length = 129 ∧
                  (∀ c ∈ d.data.take 128, ('0' ≤ c ∧ c ≤ '9') ∨ ('a' ≤ c ∧ c ≤ 'z')) ∧
                  d.data.getLast? = some '\n')))) ∧
      (∀ entries rs lgS, validate_state_block st (.obj entries) = .ok (rs, lgS) →
        ∀ d v, (d, v) ∈ entries →
          (hasCodeArg lgS "E305" "digest" (.str d) = true ↔
            ¬ ((d.data.length = 128 ∧
                  ∀ c ∈ d.data, ('0' ≤ c ∧ c ≤ '9') ∨ ('a' ≤ c ∧ c ≤ 'z')) ∨
               (d.data.length = 129 ∧
                  (∀ c ∈ d.data.take 128, ('0' ≤ c ∧ c ≤ '9') ∨ ('a' ≤ c ∧ c ≤ 'z')) ∧
                  d.data.getLast? = some '\n'))))) ∧
    (st.digest_algorithm = .str "sha256" →
      (∀ entries r lg, validate_manifest st (.obj entries) = .ok (r, lg) →
        ∀ d v, (d, v) ∈ entries →
          (hasCodeArg lg "E304" "digest" (.str d) = true ↔
            ¬ ((d.data.length = 64 ∧
                  ∀ c ∈ d.data, ('0' ≤ c ∧ c ≤ '9') ∨ ('a' ≤ c ∧ c ≤ 'z')) ∨
               (d.data.length = 65 ∧
                  (∀ c ∈ d.data.take 64, ('0' ≤ c ∧ c ≤ '9') ∨ ('a' ≤ c ∧ c ≤ 'z')) ∧
                  d.data.getLast? = some '\n')))) ∧
      (∀ entries rs lgS, validate_state_block st (.obj entries) = .ok (rs, lgS) →
        ∀ d v, (d, v) ∈ entries →
          (hasCodeArg lgS "E305" "digest" (.str d) = true ↔
            ¬ ((d.data.length = 64 ∧
                  ∀ c ∈ d.data, ('0' ≤ c ∧ c ≤ '9') ∨ ('a' ≤ c ∧ c ≤ 'z')) ∨
               (d.data.length = 65 ∧
                  (∀ c ∈ d.data.take 64, ('0' ≤ c ∧ c ≤ '9') ∨ ('a' ≤ c ∧ c ≤ 'z')) ∧
                  d.data.getLast? = some '\n'))))) := by
  have key304 : ∀ rx, digest_regex st = .ok rx →
      ∀ entries r lg, validate_manifest st (.obj entries) = .ok (r, lg) →
      ∀ d v, (d, v) ∈ entries →
        (hasCodeArg lg "E304" "digest" (.str d) = true ↔ rx.test d = false) := by
    intro rx hrx entries r lg h d v hmem
    have hm : manifestLoop st entries [] = .ok (r, lg) := h
    rw [manifestLoop_e304 st rx hrx entries [] r lg hm d]
    constructor
    · intro hex
      obtain ⟨v2, _, htv⟩ := hex
      exact htv
    · intro ht
      exact ⟨v, hmem, ht⟩
  have key305 : ∀ rx, digest_regex st = .ok rx →
      ∀ entries rs lgS, validate_state_block st (.obj entries) = .ok (rs, lgS) →
      ∀ d v, (d, v) ∈ entries →
        (hasCodeArg lgS "E305" "digest" (.str d) = true ↔ rx.test d = false) := by
    intro rx hrx entries rs lgS h d v hmem
    have h2 : eseq (Except.ok rx) (fun _ => stateLoop st entries) = .ok (rs, lgS) := by
      rw [← hrx]
      exact h
    rw [eseq_ok] at h2
    rw [stateLoop_e305 st rx hrx entries rs lgS h2 d]
    constructor
    · intro hex
      obtain ⟨v2, _, htv⟩ := hex
      exact htv
    · intro ht
      exact ⟨v, hmem, ht⟩
  constructor
  · intro h512
    have hrx : digest_regex st = .ok .rx512 := by
      unfold digest_regex
      rw [h512]
      simp
    constructor
    · intro entries r lg h d v hmem
      rw [key304 .rx512 hrx entries r lg h d v hmem]
      rw [show DigestRegex.test .rx512 d = hexMatch 128 d from rfl]
      rw [Bool.eq_false_iff, ne_eq]
      exact not_congr (hexMatch_iff 128 d)
    · intro entries rs lgS h d v hmem
      rw [key305 .rx512 hrx entries rs lgS h d v hmem]
      rw [show DigestRegex.test .rx512 d = hexMatch 128 d from rfl]
      rw [Bool.eq_false_iff, ne_eq]
      exact not_congr (hexMatch_iff 128 d)
  · intro h256
    have hrx : digest_regex st = .ok .rx256 := by
      unfold digest_regex
      rw [h256]
      simp
    constructor
    · intro entries r lg h d v hmem
      rw [key304 .rx256 hrx entries r lg h d v hmem]
      rw [show DigestRegex.test .rx256 d = hexMatch 64 d from rfl]
      rw [Bool.eq_false_iff, ne_eq]
      exact not_congr (hexMatch_iff 64 d)
    · intro entries rs lgS h d v hmem
      rw [key305 .rx256 hrx entries rs lgS h d v hmem]
      rw [show DigestRegex.test .rx256 d = hexMatch 64 d from rfl]
      rw [Bool.eq_false_iff, ne_eq]
      exact not_congr (hexMatch_iff 64 d)

/-- Witness for the amended C3: the two-character digest key zz is rejected
with E304 under sha512. -/
theorem c3_amended_witness :
    hasCodeArg [errE "E304" [("digest", Value.str "zz")]] "E304" "digest"
      (.str "zz") = true :=
  (((c3_amended_digest_format default).1 rfl).1 [("zz", .arr [])] []
    [errE "E304" [("digest", Value.str "zz")]] (by rfl) "zz" (.arr [])
    (by simp)).mpr (by decide)

/-- C7 (amended): in lax-digest mode with a non-standard algorithm adopted,
a manifest digest key is accepted unless it contains a newline anywhere
before its final character (the permissive pattern dot-star-dollar cannot
cross an interior newline); in particular the empty string is accepted, and
no non-empty newline-free string is ever rejected. -/
theorem c7_amended_lax_digests (st : IVState)
    (hlx : st.lax_digests = true)
    (h512 : st.digest_algorithm ≠ .str "sha512")
    (h256 : st.digest_algorithm ≠ .str "sha256") :
    ∀ entries r lg, validate_manifest st (.obj entries) = .ok (r, lg) →
    ∀ d v, (d, v) ∈ entries →
      (hasCodeArg lg "E304" "digest" (.str d) = true ↔
        ∃ c ∈ d.data.dropLast, c = '\n') := by
  have hrx : digest_regex st = .ok .rxLax := by
    unfold digest_regex
    rw [if_neg h512, if_neg h256, if_pos hlx]
  intro entries r lg h d v hmem
  have hm : manifestLoop st entries [] = .ok (r, lg) := h
  rw [manifestLoop_e304 st .rxLax hrx entries [] r lg hm d]
  rw [show DigestRegex.test .rxLax d = laxMatch d from rfl]
  constructor
  · intro hex
    obtain ⟨v2, _, htv⟩ := hex
    exact (laxMatch_iff d).mp htv
  · intro hn
    exact ⟨v, hmem, (laxMatch_iff d).mpr hn⟩

/-- Witness for the amended C7: under the lax frobnitz algorithm, the key
holding an interior newline is rejected with E304. -/
theorem c7_amended_witness :
    hasCodeArg [errE "E304" [("digest", Value.str "a\nb")]] "E304" "digest"
      (.str "a\nb") = true :=
  (c7_amended_lax_digests laxSt rfl (by decide) (by decide)
    [("a\nb", .arr [])] [] [errE "E304" [("digest", Value.str "a\nb")]] (by rfl)
    "a\nb" (.arr []) (by simp)).mpr (by decide)

/-- C4 (amended): validate reports head-mismatch error E914 exactly when
the head field is present and differs from the last entry of the computed
valid version sequence; a document with no head field instead receives
error E106 — head is required by the code, not optional. -/
theorem c4_amended_head_check (sdt : String → Except String Unit) (lax : Bool)
    (fields : List (String × Value)) (st : IVState) (lg : Log)
    (h : validate sdt lax (.obj fields) = .ok (st, lg)) :
    ((hasSevCode lg .err "E914" = true) ↔
      (∃ hv l, alGet fields "head" = some hv ∧ st.all_versions.getLast? = some l ∧
        hv ≠ Value.str l)) ∧
    ((hasSevCode lg .err "E106" = true) ↔ alGet fields "head" = none) := by
  obtain ⟨lg1, lg2, da, lg3, cd, lg4, mf, lg5, avs, du, lg6, hd, lg7, lg8,
    h1, h2, h3, h4, h5, h6, h7, h8, hst, hlg⟩ :=
    validate_decomp sdt lax _ st lg h
  subst hlg
  have havs : st.all_versions = avs := by rw [hst]
  rw [havs]
  have hspec := headBlock_spec fields avs hd lg7 h7
  have narrow : ∀ c, c ∈ (["E914", "E106"] : List String) →
      hasSevCode (lg1 ++ lg2 ++ lg3 ++ lg4 ++ lg5 ++ lg6 ++ lg7 ++ lg8) .err c =
        hasSevCode lg7 .err c := by
    intro c hc
    simp only [hasSevCode_append]
    rw [hasSevCode_false ["E100", "E101", "W207"] c .err (idBlock_codes _ _ h1)
          (by simp only [List.mem_cons, List.not_mem_nil, or_false] at hc; rcases hc with rfl | rfl <;> decide),
        hasSevCode_false ["E102", "E103"] c .err (typeBlock_codes _ _ h2)
          (by simp only [List.mem_cons, List.not_mem_nil, or_false] at hc; rcases hc with rfl | rfl <;> decide),
        hasSevCode_false ["E104", "W206", "E105"] c .err (daBlock_codes _ _ _ _ h3)
          (by simp only [List.mem_cons, List.not_mem_nil, or_false] at hc; rcases hc with rfl | rfl <;> decide),
        hasSevCode_false ["E051"] c .err (cdBlock_codes _ _ _ h4)
          (by simp only [List.mem_cons, List.not_mem_nil, or_false] at hc; rcases hc with rfl | rfl <;> decide),
        hasSevCode_false ["E107", "E307", "E304", "E308", "E913"] c .err
          ((manifestBlock_codes _ _ _ _ h5).1) (by simp only [List.mem_cons, List.not_mem_nil, or_false] at hc; rcases hc with rfl | rfl <;> decide),
        hasSevCode_false ["E108", "E310", "E311", "W203", "E312",
          "E401", "E402", "W208", "W209", "E410", "E912", "E305",
          "W201", "E403", "W202", "E404", "E405", "W210", "E406"] c .err
          (versionsBlock_codes _ _ _ _ _ _ h6) (by simp only [List.mem_cons, List.not_mem_nil, or_false] at hc; rcases hc with rfl | rfl <;> decide),
        hasSevCode_false ["E913", "E302"] c .err
          (fun e he => (usageBlock_codes _ _ _ h8 e he).1) (by simp only [List.mem_cons, List.not_mem_nil, or_false] at hc; rcases hc with rfl | rfl <;> decide)]
    simp
  rw [narrow "E914" (by decide), narrow "E106" (by decide)]
  exact hspec

/-- Witness for the amended C4: the empty document, lacking head, receives
error E106. -/
theorem c4_amended_witness :
    hasSevCode emptyLog .err "E106" = true :=
  (c4_amended_head_check sdtAny false [] emptySt emptyLog (by rfl)).2.mpr (by rfl)

/-- C6 (amended): every inventory whose digestAlgorithm is sha256 has
sha256 adopted as the snapshot's algorithm, but the discouraged-algorithm
warning W206 fires exactly when lax-digest mode is off — in lax mode the
lax branch runs first and skips the warning. -/
theorem c6_amended_sha256 (sdt : String → Except String Unit) (lax : Bool)
    (fields : List (String × Value)) (st : IVState) (lg : Log)
    (h : validate sdt lax (.obj fields) = .ok (st, lg))
    (hda : alGet fields "digestAlgorithm" = some (.str "sha256")) :
    st.digest_algorithm = .str "sha256" ∧
    (hasSevCode lg .warn "W206" = true ↔ lax = false) := by
  obtain ⟨lg1, lg2, da, lg3, cd, lg4, mf, lg5, avs, du, lg6, hd, lg7, lg8,
    h1, h2, h3, h4, h5, h6, h7, h8, hst, hlg⟩ :=
    validate_decomp sdt lax _ st lg h
  subst hlg
  obtain ⟨hda1, hda2⟩ := daBlock_spec lax fields da lg3 h3 hda
  constructor
  · rw [hst]
    exact hda1
  · rw [← hda2]
    simp only [hasSevCode_append]
    rw [hasSevCode_false ["E100", "E101", "W207"] "W206" .warn (idBlock_codes _ _ h1)
          (by decide),
        hasSevCode_false ["E102", "E103"] "W206" .warn (typeBlock_codes _ _ h2)
          (by decide),
        hasSevCode_false ["E051"] "W206" .warn (cdBlock_codes _ _ _ h4) (by decide),
        hasSevCode_false ["E107", "E307", "E304", "E308", "E913"] "W206" .warn
          ((manifestBlock_codes _ _ _ _ h5).1) (by decide),
        hasSevCode_false ["E108", "E310", "E311", "W203", "E312",
          "E401", "E402", "W208", "W209", "E410", "E912", "E305",
          "W201", "E403", "W202", "E404", "E405", "W210", "E406"] "W206" .warn
          (versionsBlock_codes _ _ _ _ _ _ h6) (by decide),
        hasSevCode_false ["E914", "E106"] "W206" .warn (headBlock_codes _ _ _ _ h7)
          (by decide),
        hasSevCode_false ["E913", "E302"] "W206" .warn
          (fun e he => (usageBlock_codes _ _ _ h8 e he).1) (by decide)]
    simp

/-- Witness for the amended C6: the sha256-only document without lax mode
adopts sha256 and warns W206. -/
theorem c6_amended_witness :
    sha256St.digest_algorithm = .str "sha256" ∧
    hasSevCode sha256Log .warn "W206" = true :=
  have hc6 := c6_amended_sha256 sdtAny false sha256Fields sha256St sha256Log
    (by rfl) (by rfl)
  ⟨hc6.1, hc6.2.mpr rfl⟩

/-- C9 (confirmed): when the contentDirectory field is present but invalid
(not a string, containing a slash, or one of the dot names), validate
reports error E051 and the snapshot keeps the default content directory, so
every manifest content-path error E913 was judged against the default
prefix; when the field is a safe string it is adopted and no E051 fires. -/
theorem c9_content_directory (sdt : String → Except String Unit) (lax : Bool)
    (fields : List (String × Value)) (st : IVState) (lg : Log) (w : Value)
    (h : validate sdt lax (.obj fields) = .ok (st, lg))
    (hw : alGet fields "contentDirectory" = some w) :
    (((∀ s, w ≠ Value.str s) ∨ ∃ s, w = Value.str s ∧
        (s.data.contains '/' = true ∨ s = "." ∨ s = "..")) →
      st.content_directory = "content" ∧ hasSevCode lg .err "E051" = true ∧
      (∀ p, hasCodeArg lg "E913" "path" (.str p) = true →
        is_valid_content_path "content" p = false)) ∧
    (∀ s, w = Value.str s → s.data.contains '/' = false → s ≠ "." → s ≠ ".." →
      st.content_directory = s ∧ hasSevCode lg .err "E051" = false) := by
  obtain ⟨lg1, lg2, da, lg3, cd, lg4, mf, lg5, avs, du, lg6, hd, lg7, lg8,
    h1, h2, h3, h4, h5, h6, h7, h8, hst, hlg⟩ :=
    validate_decomp sdt lax _ st lg h
  subst hlg
  obtain ⟨hbad, hgood⟩ := cdBlock_spec fields cd lg4 h4 w hw
  have hother : ∀ s : Sev, hasSevCode lg1 s "E051" = false ∧
      hasSevCode lg2 s "E051" = false ∧ hasSevCode lg3 s "E051" = false ∧
      hasSevCode lg5 s "E051" = false ∧ hasSevCode lg6 s "E051" = false ∧
      hasSevCode lg7 s "E051" = false ∧ hasSevCode lg8 s "E051" = false := by
    intro s
    exact ⟨hasSevCode_false ["E100", "E101", "W207"] "E051" s (idBlock_codes _ _ h1)
        (by decide),
      hasSevCode_false ["E102", "E103"] "E051" s (typeBlock_codes _ _ h2) (by decide),
      hasSevCode_false ["E104", "W206", "E105"] "E051" s (daBlock_codes _ _ _ _ h3)
        (by decide),
      hasSevCode_false ["E107", "E307", "E304", "E308", "E913"] "E051" s
        ((manifestBlock_codes _ _ _ _ h5).1) (by decide),
      hasSevCode_false ["E108", "E310", "E311", "W203", "E312",
        "E401", "E402", "W208", "W209", "E410", "E912", "E305",
        "W201", "E403", "W202", "E404", "E405", "W210", "E406"] "E051" s
        (versionsBlock_codes _ _ _ _ _ _ h6) (by decide),
      hasSevCode_false ["E914", "E106"] "E051" s (headBlock_codes _ _ _ _ h7)
        (by decide),
      hasSevCode_false ["E913", "E302"] "E051" s
        (fun e he => (usageBlock_codes _ _ _ h8 e he).1) (by decide)⟩
  obtain ⟨k1, k2, k3, k5, k6, k7, k8⟩ := hother .err
  constructor
  · intro hprem
    obtain ⟨hcd, he051⟩ := hbad hprem
    refine ⟨by rw [hst]; exact hcd, ?_, ?_⟩
    · simp only [hasSevCode_append, k1, k2, k3, k5, k6, k7, k8, he051]
      simp
    · intro p hp
      simp only [hasCodeArg_append] at hp
      rw [hasCodeArg_false ["E100", "E101", "W207"] "E913" "path" (.str p)
            (idBlock_codes _ _ h1) (by decide),
          hasCodeArg_false ["E102", "E103"] "E913" "path" (.str p)
            (typeBlock_codes _ _ h2) (by decide),
          hasCodeArg_false ["E104", "W206", "E105"] "E913" "path" (.str p)
            (daBlock_codes _ _ _ _ h3) (by decide),
          hasCodeArg_false ["E051"] "E913" "path" (.str p)
            (cdBlock_codes _ _ _ h4) (by decide),
          hasCodeArg_false ["E108", "E310", "E311", "W203", "E312",
            "E401", "E402", "W208", "W209", "E410", "E912", "E305",
            "W201", "E403", "W202", "E404", "E405", "W210", "E406"] "E913" "path"
            (.str p) (versionsBlock_codes _ _ _ _ _ _ h6) (by decide),
          hasCodeArg_false ["E914", "E106"] "E913" "path" (.str p)
            (headBlock_codes _ _ _ _ h7) (by decide),
          hasCodeArg_false_of_no_key
            (fun e he => (usageBlock_codes _ _ _ h8 e he).2) "E913" (.str p)] at hp
      simp only [Bool.false_or, Bool.or_false] at hp
      have hshape := (manifestBlock_codes _ _ _ _ h5).2
      rw [hcd] at hshape
      exact e913_path_invalid hshape p hp
  · intro s hs hslash hdot hdotdot
    obtain ⟨hcd, hlg4⟩ := hgood s hs hslash hdot hdotdot
    refine ⟨by rw [hst]; exact hcd, ?_⟩
    simp only [hasSevCode_append, k1, k2, k3, k5, k6, k7, k8, hlg4]
    simp [hasSevCode]

/-- Witness for C9: the invalid-contentDirectory document keeps the default
directory, fires E051, and its manifest path error was judged against the
default prefix. -/
theorem c9_witness :
    badCdSt.content_directory = "content" ∧
    hasSevCode badCdLog .err "E051" = true ∧
    is_valid_content_path "content" "v1/other/f1" = false :=
  have hc9 := (c9_content_directory sdtAny false badCdFields badCdSt badCdLog
    (.str "..") (by rfl) (by rfl)).1
    (Or.inr ⟨"..", rfl, Or.inr (Or.inr rfl)⟩)
  ⟨hc9.1, hc9.2.1, hc9.2.2 "v1/other/f1" (by rfl)⟩

/-- C10 (confirmed): validate never reaches the raise in digest_regex — the
only Exception site — for any document, external date parser and lax
setting; and in any completed run the snapshot's digest algorithm is
sha512, sha256, or was adopted under lax mode. -/
theorem c10_digest_algorithm_safe (sdt : String → Except String Unit) (lax : Bool)
    (inventory : Value) :
    (∀ m, validate sdt lax inventory ≠ .error (.exception m)) ∧
    (∀ st lg, validate sdt lax inventory = .ok (st, lg) →
      st.digest_algorithm = .str "sha512" ∨ st.digest_algorithm = .str "sha256" ∨
        lax = true) := by
  refine ⟨validate_no_exc sdt lax inventory, ?_⟩
  intro st lg h
  obtain ⟨lg1, lg2, da, lg3, cd, lg4, mf, lg5, avs, du, lg6, hd, lg7, lg8,
    h1, h2, h3, h4, h5, h6, h7, h8, hst, hlg⟩ :=
    validate_decomp sdt lax _ st lg h
  have hda := daBlock_inv lax inventory da lg3 h3
  rw [hst]
  exact hda

/-- Witness for C10 at the empty document. -/
theorem c10_witness :
    validate sdtAny false (.obj []) ≠ .error (.exception "Bad digest algorithm") ∧
    (emptySt.digest_algorithm = .str "sha512" ∨
      emptySt.digest_algorithm = .str "sha256" ∨ false = true) :=
  ⟨(c10_digest_algorithm_safe sdtAny false (.obj [])).1 "Bad digest algorithm",
   (c10_digest_algorithm_safe sdtAny false (.obj [])).2 emptySt emptyLog (by rfl)⟩

/-- C5 (amended): the textual report is the sorted newline-join of the full
message list, which gains one line per error always and one line per
warning only when the logger shows warnings — so a code firing repeatedly
yields repeated lines; the per-code map (not the report) retains only the
last-written message per code; warnings and errors are always counted. -/
theorem c5_amended_report (vl : VLogger) (code : String)
    (args : List (String × String)) :
    toReport vl = joinNl (pysorted vl.messages) ∧
    (vlError vl code args).messages =
      vl.messages ++ [renderMessage vl code "error" args] ∧
    (vlWarn vl code args).messages =
      (if vl.warnings then vl.messages ++ [renderMessage vl code "warning" args]
       else vl.messages) ∧
    (vlError vl code args).codes =
      alSet vl.codes code (renderMessage vl code "error" args) ∧
    (vlWarn vl code args).codes =
      alSet vl.codes code (renderMessage vl code "warning" args) ∧
    (vlError vl code args).num_errors = vl.num_errors + 1 ∧
    (vlWarn vl code args).num_warnings = vl.num_warnings + 1 ∧
    (vlError vl code args).num_warnings = vl.num_warnings ∧
    (vlWarn vl code args).num_errors = vl.num_errors := by
  refine ⟨rfl, ?_, ?_, rfl, rfl, rfl, rfl, rfl, rfl⟩
  · simp [vlError, error_or_warning]
  · simp only [vlWarn, error_or_warning]
    split
    · rename_i hw
      rw [if_pos (by simpa using hw)]
    · rename_i hw
      rw [if_neg (by simpa using hw)]

end OcflSpec
